import Mathlib

/-!
Verification development for the svg path library (svg.py).

The Python code is shallowly embedded: Python floats are idealised as real
numbers, Python lists as Lean lists, and code that can raise an exception is
modelled with Option / Except results.  Definitions follow the source
line by line; comments of the form "src:" point at the Python they translate.
-/

set_option maxHeartbeats 1000000
set_option maxRecDepth 10000

namespace Svg

/-- A 2-D point / vector, src: class Point (floats idealised as reals). -/
@[ext]
structure Point where
  x : ℝ
  y : ℝ

/-- src: Point.__add__ — componentwise addition. -/
noncomputable def Point.add (p q : Point) : Point := ⟨p.x + q.x, p.y + q.y⟩

noncomputable instance : Add Point := ⟨Point.add⟩

/-- src: Point.__sub__ — componentwise subtraction. -/
noncomputable def Point.sub (p q : Point) : Point := ⟨p.x - q.x, p.y - q.y⟩

noncomputable instance : Sub Point := ⟨Point.sub⟩

/-- src: Point.__mul__ — scaling by a real number. -/
noncomputable def Point.smul (p : Point) (r : ℝ) : Point := ⟨p.x * r, p.y * r⟩

/-- src: Point.length — vector length, Pythagoras theorem. -/
noncomputable def Point.length (p : Point) : ℝ := Real.sqrt (p.x ^ 2 + p.y ^ 2)

/-- An angle cached as (cos, sin), src: class Angle.  The radian field
`self.angle` computed via acos is stored by the Python constructor but read by
none of the embedded operations, so it is not modelled. -/
structure Angle where
  cos : ℝ
  sin : ℝ

/-- src: Angle.__init__ on a Point argument: cos, sin are the direction
cosines of the vector, the zero vector (ZeroDivisionError branch) is mapped
to cos = 1, sin = 0. -/
noncomputable def Angle.ofPoint (pt : Point) : Angle :=
  if pt.length = 0 then ⟨1, 0⟩ else ⟨pt.x / pt.length, pt.y / pt.length⟩

/-- src: Angle.__neg__ — the angle of the vector (cos, -sin). -/
noncomputable def Angle.negate (a : Angle) : Angle := Angle.ofPoint ⟨a.cos, -a.sin⟩

/-- src: Point.rot — rotate the vector [Origin, self] by an angle. -/
noncomputable def Point.rot (p : Point) (a : Angle) : Point :=
  ⟨p.x * a.cos - p.y * a.sin, p.x * a.sin + p.y * a.cos⟩

/-- src: class Line — a line defined by two points (field names start / en
for Python's start / end). -/
structure Line where
  start : Point
  en : Point

/-- src: Line.segments — simply the segment start -> end. -/
def Line.segments (l : Line) : List Point := [l.start, l.en]

/-- src: Line.length — Pythagoras theorem on end - start. -/
noncomputable def Line.length (l : Line) : ℝ :=
  Real.sqrt ((l.en - l.start).x ^ 2 + (l.en - l.start).y ^ 2)

/-- src: class MoveTo — wraps a destination point. -/
structure MoveTo where
  dest : Point

/-- src: class Bezier — defined by its list of control points. -/
structure Bezier where
  pts : List Point

/-- src: Bezier.__init__ sets self.dimension = len(pts). -/
def Bezier.dimension (b : Bezier) : ℕ := b.pts.length

/-- src: Bezier.control_point — pts[n], LookupError (none) when the index is
not below the dimension. -/
def Bezier.control_point (b : Bezier) (n : ℕ) : Option Point :=
  if n < b.dimension then b.pts.get? n else none

/-- src: the while loop of Bezier.rlength after the first pop: pts are popped
from the end of the list, so the list is traversed in reverse order, summing
the length of each control-point segment. -/
noncomputable def Bezier.rlengthGo (p1 : Point) : List Point → ℝ
  | [] => 0
  | p2 :: rest => (Line.mk p1 p2).length + Bezier.rlengthGo p2 rest

/-- src: Bezier.rlength — rough Bezier length, the length of the control
point polygon.  Python pops from the end of a copy of pts; an empty control
point list would raise there, which Bezier.segments models by returning none
before consulting rlength. -/
noncomputable def Bezier.rlength (b : Bezier) : ℝ :=
  match b.pts.reverse with
  | [] => 0
  | p1 :: rest => Bezier.rlengthGo p1 rest

/-- src: Bezier._bezier1 — linear interpolation p0 + t * (p1 - p0). -/
noncomputable def Bezier.bezier1 (p0 p1 : Point) (t : ℝ) : Point :=
  p0 + (p1 - p0).smul t

/-- src: the inner loop of Bezier._bezierN — one de Casteljau reduction layer:
res[i] = _bezier1(res[i], res[i+1], t) for i in range(0, n-1).  The in-place
prefix update reads only old values, so it equals zipWith over the list and
its tail (the untouched suffix of the Python array is never read again). -/
noncomputable def Bezier.layer (t : ℝ) (l : List Point) : List Point :=
  List.zipWith (fun a b => Bezier.bezier1 a b t) l l.tail

/-- src: Bezier._bezierN — iterate the reduction dimension - 1 times and
return res[0] (the default is never reached for a nonempty control list). -/
noncomputable def Bezier.bezierN (b : Bezier) (t : ℝ) : Point :=
  ((Bezier.layer t)^[b.dimension - 1] b.pts).headD ⟨0, 0⟩

/-- Python int() truncates toward zero. -/
noncomputable def pyTrunc (x : ℝ) : ℤ := if 0 ≤ x then ⌊x⌋ else -⌊-x⌋

/-- src: the step-count selection in Bezier.segments:
n = int(rlength / precision) + 1 if precision != 0 else 1000, then
raised to 10 and capped at 1000 by two successive ifs. -/
noncomputable def Bezier.stepCount (b : Bezier) (precision : ℝ) : ℤ :=
  let n : ℤ := if precision ≠ 0 then pyTrunc (b.rlength / precision) + 1 else 1000
  let n : ℤ := if n < 10 then 10 else n
  if n > 1000 then 1000 else n

/-- src: Bezier.segments — the points _bezierN(t / n) for t in range(0, n).
A Bezier with no control points raises in Python (in rlength, or at res[0]
inside _bezierN); that is modelled by returning none. -/
noncomputable def Bezier.segments (b : Bezier) (precision : ℝ) : Option (List Point) :=
  match b.pts with
  | [] => none
  | _ :: _ =>
    some ((List.range (b.stepCount precision).toNat).map
      (fun (t : ℕ) => b.bezierN ((t : ℝ) / ((b.stepCount precision : ℤ) : ℝ))))

/-- src: class Circle — center, radius (style and ident are opaque strings,
not modelled). -/
structure Circle where
  center : Point
  radius : ℝ

example : (Bezier.mk []).rlength = 0 := by simp [Bezier.rlength]

example : Line.segments ⟨⟨0, 0⟩, ⟨1, 2⟩⟩ = [⟨0, 0⟩, ⟨1, 2⟩] := by simp [Line.segments]

/-! ### Tokenizer, src: the re.findall in Path.parse

The pattern is an alternation of three branches, tried in order at each
position; on failure the scanner advances one character.  Matches cannot be
empty, the tokens are kept in source order (Python reverses the list and pops
from the end, which visits the tokens in source order). -/

/-- src: COMMANDS = 'MmZzLlHhVvCcSsQqTtAa'. -/
def COMMANDS : String := "MmZzLlHhVvCcSsQqTtAa"

/-- First char-list is a leading piece of the second. -/
def isPref : List Char → List Char → Bool
  | [], _ => true
  | _ :: _, [] => false
  | a :: as, b :: bs => a = b && isPref as bs

/-- Python's substring test `small in big` on strings, as char lists. -/
def hasSub (small : List Char) : List Char → Bool
  | [] => small.isEmpty
  | b :: bs => isPref small (b :: bs) || hasSub small bs

/-- Python str.strip() — the tokens here only ever carry plain spaces. -/
def stripChars (cs : List Char) : List Char :=
  ((cs.dropWhile (· = ' ')).reverse.dropWhile (· = ' ')).reverse

/-- str.strip() on a string. -/
def pyStrip (s : String) : String := ⟨stripChars s.toList⟩

/-- str.upper() (the tokens are ASCII). -/
def strUpper (s : String) : String := ⟨s.toList.map Char.toUpper⟩

/-- Regex branch 1: [+-]? \ * \d+ (\.\d*)? — optional sign, spaces, digits,
optional fraction; greedy, no backtracking is observable for this pattern. -/
def matchNum (cs : List Char) : Option (List Char × List Char) :=
  let (sign, cs1) :=
    match cs with
    | c :: rest => if c = '+' ∨ c = '-' then ([c], rest) else (([] : List Char), cs)
    | [] => ([], cs)
  let sp := cs1.takeWhile (· = ' ')
  let cs2 := cs1.dropWhile (· = ' ')
  let ds := cs2.takeWhile Char.isDigit
  let cs3 := cs2.dropWhile Char.isDigit
  if ds = [] then none
  else
    match cs3 with
    | '.' :: cs4 =>
      some (sign ++ sp ++ ds ++ '.' :: cs4.takeWhile Char.isDigit,
            cs4.dropWhile Char.isDigit)
    | _ => some (sign ++ sp ++ ds, cs3)

/-- Regex branch 2: \.\d+ — a dot followed by at least one digit. -/
def matchDotNum (cs : List Char) : Option (List Char × List Char) :=
  match cs with
  | '.' :: rest =>
    let ds := rest.takeWhile Char.isDigit
    if ds = [] then none else some ('.' :: ds, rest.dropWhile Char.isDigit)
  | _ => none

/-- Regex branch 3: \ * [COMMANDS] \ * — spaces, one command letter, spaces. -/
def matchCmd (cs : List Char) : Option (List Char × List Char) :=
  let sp := cs.takeWhile (· = ' ')
  match cs.dropWhile (· = ' ') with
  | c :: rest =>
    if hasSub [c] COMMANDS.toList then
      some (sp ++ c :: rest.takeWhile (· = ' '), rest.dropWhile (· = ' '))
    else none
  | [] => none

/-- The findall scan; every step consumes at least one character, so the
character count is enough fuel. -/
def tokGo : ℕ → List Char → List (List Char)
  | 0, _ => []
  | _ + 1, [] => []
  | fuel + 1, c :: cs =>
    match matchNum (c :: cs) with
    | some (m, rest) => m :: tokGo fuel rest
    | none =>
      match matchDotNum (c :: cs) with
      | some (m, rest) => m :: tokGo fuel rest
      | none =>
        match matchCmd (c :: cs) with
        | some (m, rest) => m :: tokGo fuel rest
        | none => tokGo fuel cs

/-- src: re.findall(r"([+-]?\ *\d+(?:\.\d*)?|\.\d+|\ *[MmZz...]\ *)", pathstr). -/
def tokenize (s : String) : List String :=
  (tokGo s.toList.length s.toList).map (fun cs => String.mk cs)

example : tokenize "M0,0 L10,0 L10,10 Z" =
    ["M", "0", "0", " L", "10", "0", " L", "10", "10", " Z"] := by decide

example : tokenize "M+ 1,2" = ["M", "+ 1", "2"] := by decide

example : tokenize ".5-3." = [".5", "-3."] := by decide

/-! ### float() conversion

Python float() strips whitespace, then accepts an optional sign followed by
digits with an optional fraction (the tokens produced above never carry
exponents, inf or nan, so only this shape matters).  A token such as "+ 1"
(sign, space, digits) raises ValueError.  The shape analysis is computable;
only the resulting real value is not. -/

/-- Digit-list to natural number value. -/
def digitsToNat (ds : List Char) : ℕ :=
  ds.foldl (fun a c => 10 * a + (c.toNat - '0'.toNat)) 0

/-- Shape check and digit extraction for float():
(negative?, integer digits, fraction digits, fraction length). -/
def pyFloatParse (s : String) : Option (Bool × ℕ × ℕ × ℕ) :=
  let cs := stripChars s.toList
  let (neg, cs) :=
    match cs with
    | '+' :: r => (false, r)
    | '-' :: r => (true, r)
    | _ => (false, cs)
  match cs with
  | '.' :: r =>
    let fs := r.takeWhile Char.isDigit
    if fs = [] ∨ r.dropWhile Char.isDigit ≠ [] then none
    else some (neg, 0, digitsToNat fs, fs.length)
  | _ =>
    let ds := cs.takeWhile Char.isDigit
    let r := cs.dropWhile Char.isDigit
    if ds = [] then none
    else
      match r with
      | [] => some (neg, digitsToNat ds, 0, 0)
      | '.' :: r2 =>
        if r2.dropWhile Char.isDigit ≠ [] then none
        else some (neg, digitsToNat ds, digitsToNat (r2.takeWhile Char.isDigit), r2.length)
      | _ => none

/-- The real value float() returns, from the digits extracted above. -/
noncomputable def floatVal (q : Bool × ℕ × ℕ × ℕ) : ℝ :=
  (if q.1 then -1 else 1) * ((q.2.1 : ℝ) + (q.2.2.1 : ℝ) / 10 ^ q.2.2.2)

/-- float(s): none models ValueError. -/
noncomputable def pyFloat (s : String) : Option ℝ :=
  (pyFloatParse s).map floatVal

/-! ### Path.parse — the command state machine

Whether a token is a command letter, its uppercased form, and the digits a
float() conversion would extract are all pure functions of the token string;
Python computes them at pop time, the embedding precomputes them per token
(analyzeTok), which changes nothing observable. -/

/-- A token together with its precomputed classification. -/
structure Tok where
  raw : String
  /-- pathlst[-1].strip() in COMMANDS -/
  isCmd : Bool
  /-- pathlst.pop().strip().upper() -/
  upper : String
  /-- command == command.upper() -/
  abs : Bool
  /-- the digits float() would extract, none when float() raises -/
  numval : Option (Bool × ℕ × ℕ × ℕ)
deriving DecidableEq

/-- Classify one token string. -/
def analyzeTok (s : String) : Tok :=
  { raw := s
    isCmd := hasSub (pyStrip s).toList COMMANDS.toList
    upper := strUpper (pyStrip s)
    abs := pyStrip s = strUpper (pyStrip s)
    numval := pyFloatParse s }

/-- The exceptions Path.parse can raise. -/
inductive PErr where
  /-- ValueError("No command found"): numeric token before any command. -/
  | noCommand
  /-- IndexError: pop from an empty token list. -/
  | exhausted
  /-- ValueError from float() on a malformed coordinate token. -/
  | badFloat
  /-- TypeError from the test None in 'QT' / None in 'CS': S or T with no
  previously seen command. -/
  | noneSub
  /-- IndexError from self.items[-1] with no items. -/
  | indexErr
  /-- AttributeError: the previous item has no control_point method. -/
  | attrErr
  /-- LookupError from Bezier.control_point. -/
  | lookupErr
  /-- Marks an unbound local (loop variable read after zero iterations);
  unreachable for the dimensions the code uses. -/
  | unbound
  /-- The while loop makes no progress (a numeric token while the current
  command is Z): Python loops forever. -/
  | loops
deriving DecidableEq

/-- Primitives built by Path.parse.  zline models the Line(current_pt, None)
that Z emits when no MoveTo has set start_pt: Python builds that object
happily and only crashes later when the None is used as a point. -/
inductive PItem where
  | move (m : MoveTo)
  | line (l : Line)
  | zline (start : Point)
  | bezier (b : Bezier)

/-- The local state of Path.parse's while loop.  absolute is unread until the
first command letter assigns it. -/
structure PState where
  command : Option String := none
  lastCommand : Option String := none
  absolute : Bool := true
  current : Point := ⟨0, 0⟩
  startPt : Option Point := none
  items : List PItem := []

/-- Pop one coordinate token and convert it (pop raises before float does). -/
noncomputable def popNum (toks : List Tok) : Except PErr (ℝ × List Tok) :=
  match toks with
  | [] => .error .exhausted
  | t :: rest =>
    match t.numval with
    | some q => .ok (floatVal q, rest)
    | none => .error .badFloat

/-- Pop a coordinate pair: x = pop(); y = pop(); Point(float(x), float(y)). -/
noncomputable def popPair (toks : List Tok) : Except PErr (ℝ × ℝ × List Tok) :=
  match toks with
  | x :: y :: rest =>
    match x.numval, y.numval with
    | some qx, some qy => .ok (floatVal qx, floatVal qy, rest)
    | _, _ => .error .badFloat
  | _ => .error .exhausted

/-- src: the coordinate-pair loops in the C/Q and S/T branches: read n pairs,
each offset by current_pt when the command is relative. -/
noncomputable def popPairs (absolute : Bool) (cur : Point) :
    ℕ → List Tok → Except PErr (List Point × List Tok)
  | 0, toks => .ok ([], toks)
  | n + 1, toks =>
    match popPair toks with
    | .error e => .error e
    | .ok (fx, fy, toks) =>
      let pt : Point := ⟨fx, fy⟩
      let pt := if absolute then pt else pt + cur
      match popPairs absolute cur n toks with
      | .error e => .error e
      | .ok (pts, toks) => .ok (pt :: pts, toks)

/-- src: the A branch consumes seven parameters unseen (no float conversion,
no primitive emitted). -/
def drop7 : ℕ → List Tok → Except PErr (List Tok)
  | 0, toks => .ok toks
  | _ + 1, [] => .error .exhausted
  | n + 1, _ :: rest => drop7 n rest

/-- src: the body of the S/T elif in Path.parse: the mirrored control point
is taken from the previous Bezier's control_point(ctrlpt) when last_command
is in fam ('QT' for T, 'CS' for S), else from current_pt (zero reflection);
then nbpts coordinate pairs are read and a Bezier is emitted. -/
noncomputable def smoothBranch (st : PState) (fam : String) (ctrlpt nbpts : ℕ)
    (toks : List Tok) : Except PErr (PState × List Tok) :=
  match st.lastCommand with
  | none => .error .noneSub
  | some lc =>
    let pt0res : Except PErr Point :=
      if hasSub lc.toList fam.toList then
        match st.items.getLast? with
        | none => .error .indexErr
        | some (.bezier b) =>
          match b.control_point ctrlpt with
          | none => .error .lookupErr
          | some p => .ok p
        | some _ => .error .attrErr
      else .ok st.current
    match pt0res with
    | .error e => .error e
    | .ok pt0 =>
      let pt1 := st.current
      let mirror := pt1 + pt1 - pt0
      match popPairs st.absolute st.current nbpts toks with
      | .error e => .error e
      | .ok (pts, toks) =>
        match pts.getLast? with
        | none => .error .unbound
        | some last =>
          .ok ({ st with items := st.items ++ [.bezier ⟨st.current :: mirror :: pts⟩], current := last }, toks)

/-- src: the per-command dispatch of Path.parse's while loop, run after the
command state has been updated; toks is the token list still to be consumed. -/
noncomputable def parseCmd (st : PState) (toks : List Tok) :
    Except PErr (PState × List Tok) :=
  match st.command with
  | none => .error .noCommand
  | some c =>
    if c = "M" then
      -- src: MoveTo; afterwards command = 'L' (extra pairs become LineTo)
      match popPair toks with
      | .error e => .error e
      | .ok (fx, fy, toks) =>
        let pt : Point := ⟨fx, fy⟩
        let cur := if st.absolute then pt else st.current + pt
        .ok ({ st with current := cur, startPt := some cur, items := st.items ++ [.move ⟨cur⟩], command := some "L" }, toks)
    else if c = "Z" then
      -- src: Close Path: Line(current_pt, start_pt); current_pt unchanged
      match st.startPt with
      | some sp => .ok ({ st with items := st.items ++ [.line ⟨st.current, sp⟩] }, toks)
      | none => .ok ({ st with items := st.items ++ [.zline st.current] }, toks)
    else if c = "L" ∨ c = "H" ∨ c = "V" then
      -- src: LineTo, Horizontal and Vertical line: the untouched coordinate
      -- comes from current_pt when absolute, from 0 when relative
      let x0 : ℝ := if st.absolute then st.current.x else 0
      let y0 : ℝ := if st.absolute then st.current.y else 0
      match (if c = "V" then .ok (x0, toks) else popNum toks) with
      | .error e => .error e
      | .ok (xv, toks) =>
        match (if c = "H" then .ok (y0, toks) else popNum toks) with
        | .error e => .error e
        | .ok (yv, toks) =>
          let pt : Point := ⟨xv, yv⟩
          let pt := if st.absolute then pt else pt + st.current
          .ok ({ st with items := st.items ++ [.line ⟨st.current, pt⟩], current := pt }, toks)
    else if c = "C" ∨ c = "Q" then
      -- src: full cubic / quadratic Bezier: current_pt plus dimension-1 pairs
      let dim : ℕ := if c = "Q" then 3 else 4
      match popPairs st.absolute st.current (dim - 1) toks with
      | .error e => .error e
      | .ok (pts, toks) =>
        match pts.getLast? with
        | none => .error .unbound
        | some last =>
          .ok ({ st with items := st.items ++ [.bezier ⟨st.current :: pts⟩], current := last }, toks)
    else if c = "T" ∨ c = "S" then
      -- src: smooth variants: nbpts = {'T':1,'S':2}, ctrlpt = {'T':1,'S':2},
      -- last = {'T':'QT','S':'CS'}
      smoothBranch st (if c = "T" then "QT" else "CS")
        (if c = "T" then 1 else 2) (if c = "T" then 1 else 2) toks
    else if c = "A" then
      match drop7 7 toks with
      | .error e => .error e
      | .ok toks => .ok (st, toks)
    else
      -- src: the final else pops one token; unreachable, every uppercased
      -- command letter is handled above
      match toks with
      | [] => .error .exhausted
      | _ :: rest => .ok (st, rest)

/-- src: one iteration of the while loop: a command token updates command,
last_command and absolute and is consumed; a numeric token with no command
yet raises; otherwise the numeric token is left for the dispatch to pop. -/
noncomputable def parseBody (st : PState) (tok : Tok) (rest : List Tok) :
    Except PErr (PState × List Tok) :=
  if tok.isCmd then
    parseCmd { st with lastCommand := st.command, command := some tok.upper, absolute := tok.abs } rest
  else if st.command = none then .error .noCommand
  else parseCmd st (tok :: rest)

/-- src: the while loop of Path.parse.  Every iteration consumes at least one
token except a numeric token under command Z, where Python loops forever:
running out of this fuel therefore models nontermination (.loops). -/
noncomputable def parseLoop : ℕ → PState → List Tok → Except PErr PState
  | 0, _, _ => .error .loops
  | _ + 1, st, [] => .ok st
  | fuel + 1, st, tok :: rest =>
    match parseBody st tok rest with
    | .error e => .error e
    | .ok (st2, toks2) => parseLoop fuel st2 toks2

/-- src: Path.parse — tokenize, classify and run the command state machine
(Python reverses the token list and pops from the end, i.e. processes the
tokens in source order).  Returns the final loop state, whose items field is
the parsed primitive list. -/
noncomputable def parsePath (pathstr : String) : Except PErr PState :=
  let toks := (tokenize pathstr).map analyzeTok
  parseLoop (toks.length + 1) {} toks

/-! ### Path.segments and Path.simplify -/

/-- src: the loop of Path.segments: collect each non-MoveTo item's segments
into the running subpath seg, flushing a nonempty seg at each MoveTo; the
final seg is appended unconditionally (possibly empty).  A zline (a Z before
any MoveTo) carries Python's None as endpoint: its use as a point poisons all
downstream geometry, modelled as an error here. -/
noncomputable def segGo (precision : ℝ) : List PItem → List Point → Option (List (List Point))
  | [], seg => some [seg]
  | .move _ :: rest, seg =>
    match seg with
    | [] => segGo precision rest []
    | _ :: _ => (segGo precision rest []).map (seg :: ·)
  | .line l :: rest, seg => segGo precision rest (seg ++ l.segments)
  | .zline _ :: _, _ => none
  | .bezier b :: rest, seg =>
    match b.segments precision with
    | none => none
    | some pts => segGo precision rest (seg ++ pts)

/-- src: Path.segments — the list of subpaths, split at MoveTo boundaries. -/
noncomputable def Path.segments (items : List PItem) (precision : ℝ) :
    Option (List (List Point)) :=
  segGo precision items []

/-- src: the while loop of Path.simplify.  The accepted-point list s is kept
in reverse order (head = most recently appended), so Python's s.append is
cons and s.pop() is tail; p1, p2 are the anchor points, p3 :: rest the
remaining candidates (Python pops them off the reversed segment). -/
noncomputable def simplifyLoop (precision : ℝ) :
    Point → Point → List Point → List Point → List Point
  | _, _, [], s => s
  | p1, p2, p3 :: rest, s =>
    if (p2 - p1).length = 0 then
      -- src: zero reference vector: s.pop(); p2 = p3; s.append(p2)
      simplifyLoop precision p1 p3 rest (p3 :: s.tail)
    else if (p3 - p1).length = 0 then
      -- src: skip a null tested vector
      simplifyLoop precision p1 p2 rest s
    else
      -- src: theta = Angle(a); c = b.rot(-theta); keep p3 iff abs(c.y) > precision
      let theta := Angle.ofPoint (p2 - p1)
      let c := (p3 - p1).rot theta.negate
      if precision < |c.y| then simplifyLoop precision p2 p3 rest (p3 :: s)
      else simplifyLoop precision p1 p2 rest s

/-- src: the per-subpath body of Path.simplify: seed s with the first two
points, run the loop, then append the loop variable p3 unconditionally.
none models the exceptions on short subpaths: fewer than two points make the
initial pops raise IndexError, and on exactly two the final s.append(p3)
reads the never-assigned loop variable (UnboundLocalError).  With at least
one candidate, the final p3 is the last point of the input. -/
noncomputable def simplifySeg (precision : ℝ) (seg : List Point) : Option (List Point) :=
  match seg with
  | p1 :: p2 :: rest =>
    match rest.getLast? with
    | none => none
    | some q => some ((q :: simplifyLoop precision p1 p2 rest [p2, p1]).reverse)
  | _ => none

/-- src: the for loop of Path.simplify: simplify each flattened subpath in
turn; any raise aborts the whole call. -/
noncomputable def simplifyAll (precision : ℝ) : List (List Point) → Option (List (List Point))
  | [] => some []
  | seg :: rest =>
    match simplifySeg precision seg with
    | none => none
    | some s =>
      match simplifyAll precision rest with
      | none => none
      | some ss => some (s :: ss)

/-- src: Path.simplify — run the loop over self.segments(precision). -/
noncomputable def Path.simplify (items : List PItem) (precision : ℝ) :
    Option (List (List Point)) :=
  match Path.segments items precision with
  | none => none
  | some segs => simplifyAll precision segs

/-! ### The Drawable composite (Svg / Group) and bounding boxes

A Drawable's children may in Python be nested groups as well; the claims here
concern one level of aggregation, so children are modelled as the four leaf
primitives (whose bbox methods are pure). -/

/-- src: Line.bbox — the axis-aligned box of the two endpoints. -/
noncomputable def Line.bbox (l : Line) : Point × Point :=
  let xs : ℝ × ℝ := if l.start.x < l.en.x then (l.start.x, l.en.x) else (l.en.x, l.start.x)
  let ys : ℝ × ℝ := if l.start.y < l.en.y then (l.start.y, l.en.y) else (l.en.y, l.start.y)
  (⟨xs.1, ys.1⟩, ⟨xs.2, ys.2⟩)

/-- src: the field update in Drawable.bbox and Bezier.rbbox:
if xmin == None or v < xmin: xmin = v. -/
noncomputable def minUpd (cur : Option ℝ) (v : ℝ) : Option ℝ :=
  match cur with
  | none => some v
  | some m => if v < m then some v else some m

/-- src: the field update in Drawable.bbox and Bezier.rbbox:
if xmax == None or v > xmax: xmax = v. -/
noncomputable def maxUpd (cur : Option ℝ) (v : ℝ) : Option ℝ :=
  match cur with
  | none => some v
  | some m => if v > m then some v else some m

/-- src: the loop body of Bezier.rbbox, updating (xmin, ymin, xmax, ymax). -/
noncomputable def rbboxStep (acc : Option ℝ × Option ℝ × Option ℝ × Option ℝ)
    (pt : Point) : Option ℝ × Option ℝ × Option ℝ × Option ℝ :=
  (minUpd acc.1 pt.x, minUpd acc.2.1 pt.y, maxUpd acc.2.2.1 pt.x, maxUpd acc.2.2.2 pt.y)

/-- src: Bezier.rbbox — min/max over the control points starting from None
fields; an empty control list leaves them None and Point(None, None) raises
(modelled as none). -/
noncomputable def Bezier.rbbox (b : Bezier) : Option (Point × Point) :=
  match b.pts.foldl rbboxStep (none, none, none, none) with
  | (some xn, some yn, some xx, some yx) => some (⟨xn, yn⟩, ⟨xx, yx⟩)
  | _ => none

/-- src: Bezier.bbox returns self.rbbox(). -/
noncomputable def Bezier.bbox (b : Bezier) : Option (Point × Point) := b.rbbox

/-- src: MoveTo.bbox — the degenerate box (dest, dest). -/
def MoveTo.bbox (m : MoveTo) : Point × Point := (m.dest, m.dest)

/-- src: Circle.bbox — center offset by (r, r) on both sides. -/
noncomputable def Circle.bbox (c : Circle) : Point × Point :=
  (c.center - ⟨c.radius, c.radius⟩, c.center + ⟨c.radius, c.radius⟩)

/-- A child of a Drawable composite. -/
inductive DItem where
  | line (l : Line)
  | bezier (b : Bezier)
  | move (m : MoveTo)
  | circle (c : Circle)

/-- The child's bbox method (pure in every leaf class). -/
noncomputable def DItem.bbox : DItem → Option (Point × Point)
  | .line l => some l.bbox
  | .bezier b => b.bbox
  | .move m => some m.bbox
  | .circle c => some c.bbox

/-- src: the translate methods of Line / Bezier / MoveTo / Circle. -/
noncomputable def DItem.translate (off : Point) : DItem → DItem
  | .line l => .line ⟨l.start + off, l.en + off⟩
  | .bezier b => .bezier ⟨b.pts.map (· + off)⟩
  | .move m => .move ⟨m.dest + off⟩
  | .circle c => .circle ⟨c.center + off, c.radius⟩

/-- src: the scale methods of Line / Bezier / MoveTo / Circle. -/
noncomputable def DItem.scale (ratio : ℝ) : DItem → DItem
  | .line l => .line ⟨l.start.smul ratio, l.en.smul ratio⟩
  | .bezier b => .bezier ⟨b.pts.map (Point.smul · ratio)⟩
  | .move m => .move ⟨m.dest.smul ratio⟩
  | .circle c => .circle ⟨c.center.smul ratio, c.radius * ratio⟩

/-- src: Drawable.__init__ — items plus the four None-initialised bbox
fields, which persist on the object between bbox() calls. -/
structure Drawable where
  items : List DItem
  xmin : Option ℝ := none
  xmax : Option ℝ := none
  ymin : Option ℝ := none
  ymax : Option ℝ := none

/-- src: the for loop of Drawable.bbox, threading the four mutable fields
through the children's boxes. -/
noncomputable def bboxGo (xmin xmax ymin ymax : Option ℝ) :
    List DItem → Option (Option ℝ × Option ℝ × Option ℝ × Option ℝ)
  | [] => some (xmin, xmax, ymin, ymax)
  | it :: rest =>
    match it.bbox with
    | none => none
    | some (pmin, pmax) =>
      bboxGo (minUpd xmin pmin.x) (maxUpd xmax pmax.x)
        (minUpd ymin pmin.y) (maxUpd ymax pmax.y) rest

/-- src: Drawable.bbox — runs the field-updating loop, stores the updated
fields on the object and returns (Point(xmin, ymin), Point(xmax, ymax));
fields still None there make the Point constructor raise (none). -/
noncomputable def Drawable.bbox (d : Drawable) : Option (Drawable × (Point × Point)) :=
  match bboxGo d.xmin d.xmax d.ymin d.ymax d.items with
  | none => none
  | some (xn, xx, yn, yx) =>
    match xn, xx, yn, yx with
    | some a, some b, some c, some e =>
      some ({ d with xmin := some a, xmax := some b, ymin := some c, ymax := some e },
            (⟨a, c⟩, ⟨b, e⟩))
    | _, _, _, _ => none

/-- src: Drawable.translate — translates every child in place; the cached
bbox fields are not touched. -/
noncomputable def Drawable.translate (d : Drawable) (off : Point) : Drawable :=
  { d with items := d.items.map (DItem.translate off) }

/-- src: Drawable.scale — scales every child in place; the cached bbox
fields are not touched. -/
noncomputable def Drawable.scale (d : Drawable) (ratio : ℝ) : Drawable :=
  { d with items := d.items.map (DItem.scale ratio) }

/-! ### Basic lemmas about the point arithmetic -/

@[simp] lemma Point.add_x (p q : Point) : (p + q).x = p.x + q.x := rfl

@[simp] lemma Point.add_y (p q : Point) : (p + q).y = p.y + q.y := rfl

@[simp] lemma Point.sub_x (p q : Point) : (p - q).x = p.x - q.x := rfl

@[simp] lemma Point.sub_y (p q : Point) : (p - q).y = p.y - q.y := rfl

@[simp] lemma Point.smul_x (p : Point) (r : ℝ) : (p.smul r).x = p.x * r := rfl

@[simp] lemma Point.smul_y (p : Point) (r : ℝ) : (p.smul r).y = p.y * r := rfl

@[simp] lemma Point.mk_add_mk (a b c d : ℝ) :
    (Point.mk a b) + (Point.mk c d) = ⟨a + c, b + d⟩ := rfl

@[simp] lemma Point.mk_sub_mk (a b c d : ℝ) :
    (Point.mk a b) - (Point.mk c d) = ⟨a - c, b - d⟩ := rfl

/-- A length is zero exactly when both coordinates are. -/
lemma Point.length_eq_zero (p : Point) : p.length = 0 ↔ p.x = 0 ∧ p.y = 0 := by
  unfold Point.length
  rw [Real.sqrt_eq_zero (by positivity)]
  constructor
  · intro h
    constructor <;> nlinarith [sq_nonneg p.x, sq_nonneg p.y]
  · rintro ⟨hx, hy⟩
    rw [hx, hy]
    ring

/-- Length of a difference is zero exactly on equal points. -/
lemma Point.length_sub_eq_zero (p q : Point) : (p - q).length = 0 ↔ p = q := by
  rw [Point.length_eq_zero]
  constructor
  · rintro ⟨hx, hy⟩
    ext <;> [skip; skip] <;> simp at hx hy <;> linarith
  · rintro rfl
    simp

/-! ### Concrete parses used by the claims about "M0,0 L10,0 L10,10 Z" -/

/-- Token classification of the square path (computed by the tokenizer). -/
lemma tokSquare : (tokenize "M0,0 L10,0 L10,10 Z").map analyzeTok =
    [⟨"M", true, "M", true, none⟩,
     ⟨"0", false, "0", true, some (false, 0, 0, 0)⟩,
     ⟨"0", false, "0", true, some (false, 0, 0, 0)⟩,
     ⟨" L", true, "L", true, none⟩,
     ⟨"10", false, "10", true, some (false, 10, 0, 0)⟩,
     ⟨"0", false, "0", true, some (false, 0, 0, 0)⟩,
     ⟨" L", true, "L", true, none⟩,
     ⟨"10", false, "10", true, some (false, 10, 0, 0)⟩,
     ⟨"10", false, "10", true, some (false, 10, 0, 0)⟩,
     ⟨" Z", true, "Z", true, none⟩] := by decide

/-- Token classification of the square path without the closing Z. -/
lemma tokSquareNoZ : (tokenize "M0,0 L10,0 L10,10").map analyzeTok =
    [⟨"M", true, "M", true, none⟩,
     ⟨"0", false, "0", true, some (false, 0, 0, 0)⟩,
     ⟨"0", false, "0", true, some (false, 0, 0, 0)⟩,
     ⟨" L", true, "L", true, none⟩,
     ⟨"10", false, "10", true, some (false, 10, 0, 0)⟩,
     ⟨"0", false, "0", true, some (false, 0, 0, 0)⟩,
     ⟨" L", true, "L", true, none⟩,
     ⟨"10", false, "10", true, some (false, 10, 0, 0)⟩,
     ⟨"10", false, "10", true, some (false, 10, 0, 0)⟩] := by decide

/-- Full run of the parser on the square path. -/
lemma parseSquare : parsePath "M0,0 L10,0 L10,10 Z" = .ok
    { command := some "Z", lastCommand := some "L", absolute := true
      current := ⟨10, 10⟩, startPt := some ⟨0, 0⟩
      items := [.move ⟨⟨0, 0⟩⟩, .line ⟨⟨0, 0⟩, ⟨10, 0⟩⟩,
        .line ⟨⟨10, 0⟩, ⟨10, 10⟩⟩, .line ⟨⟨10, 10⟩, ⟨0, 0⟩⟩] } := by
  rw [parsePath, tokSquare]
  simp +decide [parseLoop, parseBody, parseCmd, popPair, popNum, floatVal]

/-- Full run of the parser on the square path without the closing Z. -/
lemma parseSquareNoZ : parsePath "M0,0 L10,0 L10,10" = .ok
    { command := some "L", lastCommand := some "L", absolute := true
      current := ⟨10, 10⟩, startPt := some ⟨0, 0⟩
      items := [.move ⟨⟨0, 0⟩⟩, .line ⟨⟨0, 0⟩, ⟨10, 0⟩⟩,
        .line ⟨⟨10, 0⟩, ⟨10, 10⟩⟩] } := by
  rw [parsePath, tokSquareNoZ]
  simp +decide [parseLoop, parseBody, parseCmd, popPair, popNum, floatVal]

/-- C2: parsing "M0,0 L10,0 L10,10 Z" yields exactly the four primitives
MoveTo(0,0), Line (0,0)→(10,0), Line (10,0)→(10,10) and the closing Line
(10,10)→(0,0) emitted by Z; the current point after the parse equals the
current point just before the Z was processed (Z leaves it unchanged). -/
theorem C2_parse_square_primitives :
    (parsePath "M0,0 L10,0 L10,10 Z").map (fun st => st.items) = .ok
      [.move ⟨⟨0, 0⟩⟩, .line ⟨⟨0, 0⟩, ⟨10, 0⟩⟩,
       .line ⟨⟨10, 0⟩, ⟨10, 10⟩⟩, .line ⟨⟨10, 10⟩, ⟨0, 0⟩⟩] ∧
    (parsePath "M0,0 L10,0 L10,10 Z").map (fun st => st.current) = .ok ⟨10, 10⟩ ∧
    (parsePath "M0,0 L10,0 L10,10").map (fun st => st.current) = .ok ⟨10, 10⟩ := by
  rw [parseSquare, parseSquareNoZ]
  exact ⟨rfl, rfl, rfl⟩

/-- C1 counterexample: segments(0) of the Path parsed from
"M0,0 L10,0 L10,10 Z" is not the four-point subpath the claim states. -/
theorem C1_counterexample :
    (parsePath "M0,0 L10,0 L10,10 Z").map (fun st => Path.segments st.items 0) ≠
      .ok (some [[⟨0, 0⟩, ⟨10, 0⟩, ⟨10, 10⟩, ⟨0, 0⟩]]) := by
  rw [parseSquare]
  simp [Path.segments, Except.map, segGo, Line.segments]

/-- C1 amended: segments(0) of the Path parsed from "M0,0 L10,0 L10,10 Z"
returns one subpath of six points, each Line contributing both of its
endpoints, so the interior junction points (10,0) and (10,10) appear twice:
[(0,0),(10,0),(10,0),(10,10),(10,10),(0,0)]. -/
theorem C1_amended_segments :
    (parsePath "M0,0 L10,0 L10,10 Z").map (fun st => Path.segments st.items 0) =
      .ok (some [[⟨0, 0⟩, ⟨10, 0⟩, ⟨10, 0⟩, ⟨10, 10⟩, ⟨10, 10⟩, ⟨0, 0⟩]]) := by
  rw [parseSquare]
  simp [Path.segments, Except.map, segGo, Line.segments]

/-! ### Error behaviour of the parser (C9) and the smooth-command mirror (C3) -/

/-- The parse of "T1,1" raises: T consults last_command, which is still
Python None, and None in 'QT' is a TypeError.  The claim's two listed error
conditions do not cover this input (its first token is a command letter and
no coordinate pop meets an exhausted stream). -/
theorem C9_counterexample : parsePath "T1,1" = .error .noneSub := by
  rw [parsePath, show (tokenize "T1,1").map analyzeTok =
    [⟨"T", true, "T", true, none⟩,
     ⟨"1", false, "1", true, some (false, 1, 0, 0)⟩,
     ⟨"1", false, "1", true, some (false, 1, 0, 0)⟩] from by decide]
  simp +decide [parseLoop, parseBody, parseCmd, smoothBranch, popPair, popNum, popPairs, floatVal]

/-- C9 amended: the two listed conditions (exhausted stream during a
coordinate pop; a non-letter token before any command) do raise, but they are
not the only parse failures: a smooth S/T command with no previously seen
command raises, and so does a numeric token float() cannot convert; inputs
avoiding every failure parse successfully. -/
theorem C9_amended_error_cases :
    parsePath "5 3" = .error .noCommand ∧
    parsePath "M0" = .error .exhausted ∧
    parsePath "T1,1" = .error .noneSub ∧
    parsePath "M+ 1 2" = .error .badFloat ∧
    (parsePath "M1,2 L3,4").isOk = true := by
  refine ⟨?_, ?_, ?_, ?_, ?_⟩
  · rw [parsePath, show (tokenize "5 3").map analyzeTok =
      [⟨"5", false, "5", true, some (false, 5, 0, 0)⟩,
       ⟨" 3", false, "3", true, some (false, 3, 0, 0)⟩] from by decide]
    simp +decide [parseLoop, parseBody, parseCmd, popPair, popNum, floatVal]
  · rw [parsePath, show (tokenize "M0").map analyzeTok =
      [⟨"M", true, "M", true, none⟩,
       ⟨"0", false, "0", true, some (false, 0, 0, 0)⟩] from by decide]
    simp +decide [parseLoop, parseBody, parseCmd, popPair, popNum, floatVal]
  · rw [parsePath, show (tokenize "T1,1").map analyzeTok =
      [⟨"T", true, "T", true, none⟩,
       ⟨"1", false, "1", true, some (false, 1, 0, 0)⟩,
       ⟨"1", false, "1", true, some (false, 1, 0, 0)⟩] from by decide]
    simp +decide [parseLoop, parseBody, parseCmd, smoothBranch, popPair, popNum, popPairs, floatVal]
  · rw [parsePath, show (tokenize "M+ 1 2").map analyzeTok =
      [⟨"M", true, "M", true, none⟩,
       ⟨"+ 1", false, "+ 1", true, none⟩,
       ⟨" 2", false, "2", true, some (false, 2, 0, 0)⟩] from by decide]
    simp +decide [parseLoop, parseBody, parseCmd, popPair, popNum, floatVal]
  · rw [parsePath, show (tokenize "M1,2 L3,4").map analyzeTok =
      [⟨"M", true, "M", true, none⟩,
       ⟨"1", false, "1", true, some (false, 1, 0, 0)⟩,
       ⟨"2", false, "2", true, some (false, 2, 0, 0)⟩,
       ⟨" L", true, "L", true, none⟩,
       ⟨"3", false, "3", true, some (false, 3, 0, 0)⟩,
       ⟨"4", false, "4", true, some (false, 4, 0, 0)⟩] from by decide]
    simp +decide [parseLoop, parseBody, parseCmd, popPair, popNum, floatVal]

/-- C3 counterexample: in "M0,0 L1,0 S2,2 3,3 4,4 5,5" the second S is an
implicit repetition whose immediately preceding emitted command is the
S-family Bezier [(1,0),(1,0),(2,2),(3,3)], so the claim demands the inferred
control point 2*(3,3) - control_point(2) = (4,4); the code instead keys on
the stale last_command = 'L' and emits current_pt = (3,3). -/
theorem C3_counterexample :
    (parsePath "M0,0 L1,0 S2,2 3,3 4,4 5,5").map (fun st => st.items) = .ok
      [.move ⟨⟨0, 0⟩⟩, .line ⟨⟨0, 0⟩, ⟨1, 0⟩⟩,
       .bezier ⟨[⟨1, 0⟩, ⟨1, 0⟩, ⟨2, 2⟩, ⟨3, 3⟩]⟩,
       .bezier ⟨[⟨3, 3⟩, ⟨3, 3⟩, ⟨4, 4⟩, ⟨5, 5⟩]⟩] ∧
    Bezier.control_point ⟨[⟨1, 0⟩, ⟨1, 0⟩, ⟨2, 2⟩, ⟨3, 3⟩]⟩ 2 = some ⟨2, 2⟩ ∧
    (⟨3, 3⟩ : Point) ≠ (⟨3, 3⟩ : Point) + ⟨3, 3⟩ - ⟨2, 2⟩ := by
  refine ⟨?_, ?_, ?_⟩
  · rw [parsePath, show (tokenize "M0,0 L1,0 S2,2 3,3 4,4 5,5").map analyzeTok =
      [⟨"M", true, "M", true, none⟩,
       ⟨"0", false, "0", true, some (false, 0, 0, 0)⟩,
       ⟨"0", false, "0", true, some (false, 0, 0, 0)⟩,
       ⟨" L", true, "L", true, none⟩,
       ⟨"1", false, "1", true, some (false, 1, 0, 0)⟩,
       ⟨"0", false, "0", true, some (false, 0, 0, 0)⟩,
       ⟨" S", true, "S", true, none⟩,
       ⟨"2", false, "2", true, some (false, 2, 0, 0)⟩,
       ⟨"2", false, "2", true, some (false, 2, 0, 0)⟩,
       ⟨" 3", false, "3", true, some (false, 3, 0, 0)⟩,
       ⟨"3", false, "3", true, some (false, 3, 0, 0)⟩,
       ⟨" 4", false, "4", true, some (false, 4, 0, 0)⟩,
       ⟨"4", false, "4", true, some (false, 4, 0, 0)⟩,
       ⟨" 5", false, "5", true, some (false, 5, 0, 0)⟩,
       ⟨"5", false, "5", true, some (false, 5, 0, 0)⟩] from by decide]
    simp +decide [parseLoop, parseBody, parseCmd, smoothBranch, popPair, popNum,
      popPairs, floatVal, Except.map, Bezier.control_point, Bezier.dimension]
  · simp [Bezier.control_point, Bezier.dimension]
  · intro h
    rw [Point.mk_add_mk, Point.mk_sub_mk, Point.ext_iff] at h
    norm_num at h

/-- The amended mirror rule. -/
noncomputable def mirrorOfFam (st : PState) (fam : String) (k : ℕ) : Point :=
  match st.lastCommand with
  | none => st.current
  | some lc =>
    if hasSub lc.toList fam.toList then
      match st.items.getLast? with
      | some (.bezier b) =>
        match b.control_point k with
        | some cp => st.current + st.current - cp
        | none => st.current
      | _ => st.current
    else st.current

lemma smoothBranch_mirror (st : PState) (fam : String) (ctrlpt nbpts : ℕ)
    (toks : List Tok) (st2 : PState) (toks2 : List Tok)
    (hok : smoothBranch st fam ctrlpt nbpts toks = .ok (st2, toks2)) :
    st2.items.getLast?.bind
      (fun it => match it with | PItem.bezier b => b.pts.get? 1 | _ => none) =
      some (mirrorOfFam st fam ctrlpt) := by
  unfold smoothBranch at hok
  cases hL : st.lastCommand with
  | none => rw [hL] at hok; exact absurd hok (by simp)
  | some lc =>
    rw [hL] at hok
    simp only [] at hok
    unfold mirrorOfFam
    rw [hL]
    simp only []
    by_cases hF : hasSub lc.toList fam.toList = true
    · rw [if_pos hF] at hok
      rw [if_pos hF]
      cases hG : st.items.getLast? with
      | none => rw [hG] at hok; exact absurd hok (by simp)
      | some it =>
        rw [hG] at hok
        cases it with
        | bezier b =>
          simp only [] at hok
          cases hCP : b.control_point ctrlpt with
          | none => rw [hCP] at hok; exact absurd hok (by simp)
          | some cp =>
            rw [hCP] at hok
            simp only [] at hok
            cases hP : popPairs st.absolute st.current nbpts toks with
            | error e => rw [hP] at hok; exact absurd hok (by simp)
            | ok pr =>
              rw [hP] at hok
              simp only [] at hok
              obtain ⟨pts, toks3⟩ := pr
              cases hLst : pts.getLast? with
              | none => rw [hLst] at hok; exact absurd hok (by simp)
              | some last =>
                rw [hLst] at hok
                simp only [] at hok
                simp only [Except.ok.injEq, Prod.mk.injEq] at hok
                obtain ⟨h1, h2⟩ := hok
                subst h1
                simp [List.getLast?_concat, hCP]
        | move m => exact absurd hok (by simp)
        | line l => exact absurd hok (by simp)
        | zline p => exact absurd hok (by simp)
    · rw [if_neg hF] at hok
      rw [if_neg hF]
      simp only [] at hok
      cases hP : popPairs st.absolute st.current nbpts toks with
      | error e => rw [hP] at hok; exact absurd hok (by simp)
      | ok pr =>
        rw [hP] at hok
        simp only [] at hok
        obtain ⟨pts, toks3⟩ := pr
        cases hLst : pts.getLast? with
        | none => rw [hLst] at hok; exact absurd hok (by simp)
        | some last =>
          rw [hLst] at hok
          simp only [] at hok
          simp only [Except.ok.injEq, Prod.mk.injEq] at hok
          obtain ⟨h1, h2⟩ := hok
          subst h1
          have hds : st.current + st.current - st.current = st.current := by
            ext <;> simp
          simp [List.getLast?_concat, hds]


/-- C3 amended: the smooth commands' inferred first control point follows the
parser's last_command, not the previously emitted command: whenever the
dispatch runs with command S or T and succeeds, the second point of the
Bezier it emits equals 2*current_pt - previous_bezier.control_point(k) when
last_command (the command letter in effect before the current explicit S/T
letter was read, unchanged across implicit repetitions) is in the same family
(C/S for S, Q/T for T, tested as Python substring membership), and equals
current_pt otherwise — as captured by mirrorOfFam. -/
theorem C3_amended_mirror (st : PState) (c : String) (toks : List Tok)
    (st2 : PState) (toks2 : List Tok)
    (hcmd : st.command = some c) (hc : c = "S" ∨ c = "T")
    (hok : parseCmd st toks = .ok (st2, toks2)) :
    st2.items.getLast?.bind
      (fun it => match it with | PItem.bezier b => b.pts.get? 1 | _ => none) =
      some (mirrorOfFam st (if c = "T" then "QT" else "CS") (if c = "T" then 1 else 2)) := by
  rcases hc with rfl | rfl
  · simp only [parseCmd, hcmd] at hok
    rw [if_neg (by decide), if_neg (by decide), if_neg (by decide),
        if_neg (by decide), if_pos (by decide)] at hok
    simp only [show (if ("S" : String) = "T" then ("QT" : String) else "CS") = "CS" from rfl,
      show (if ("S" : String) = "T" then (1 : ℕ) else 2) = 2 from rfl] at hok ⊢
    exact smoothBranch_mirror st "CS" 2 2 toks st2 toks2 hok
  · simp only [parseCmd, hcmd] at hok
    rw [if_neg (by decide), if_neg (by decide), if_neg (by decide),
        if_neg (by decide), if_pos (by decide)] at hok
    simp only [show (if ("T" : String) = "T" then ("QT" : String) else "CS") = "QT" from rfl,
      show (if ("T" : String) = "T" then (1 : ℕ) else 2) = 1 from rfl] at hok ⊢
    exact smoothBranch_mirror st "QT" 1 1 toks st2 toks2 hok

/-- Witness for C3's amended theorem: an S dispatch after last_command C
mirrors the previous Bezier's second control point: from current (3,3) and
previous control point (2,2) the inferred point is (4,4). -/
theorem C3_amended_mirror_witness :
    parseCmd
      { command := some "S", lastCommand := some "C", absolute := true
        current := ⟨3, 3⟩, startPt := some ⟨0, 0⟩
        items := [.bezier ⟨[⟨1, 0⟩, ⟨1, 0⟩, ⟨2, 2⟩, ⟨3, 3⟩]⟩] }
      [⟨"4", false, "4", true, some (false, 4, 0, 0)⟩,
       ⟨"4", false, "4", true, some (false, 4, 0, 0)⟩,
       ⟨"5", false, "5", true, some (false, 5, 0, 0)⟩,
       ⟨"5", false, "5", true, some (false, 5, 0, 0)⟩] = .ok
      ({ command := some "S", lastCommand := some "C", absolute := true
         current := ⟨5, 5⟩, startPt := some ⟨0, 0⟩
         items := [.bezier ⟨[⟨1, 0⟩, ⟨1, 0⟩, ⟨2, 2⟩, ⟨3, 3⟩]⟩,
                   .bezier ⟨[⟨3, 3⟩, ⟨4, 4⟩, ⟨4, 4⟩, ⟨5, 5⟩]⟩] }, []) ∧
    ([PItem.bezier ⟨[⟨1, 0⟩, ⟨1, 0⟩, ⟨2, 2⟩, ⟨3, 3⟩]⟩,
      PItem.bezier ⟨[⟨3, 3⟩, ⟨4, 4⟩, ⟨4, 4⟩, ⟨5, 5⟩]⟩].getLast?.bind
      (fun it => match it with | PItem.bezier b => b.pts.get? 1 | _ => none)) =
      some (mirrorOfFam
        { command := some "S", lastCommand := some "C", absolute := true
          current := ⟨3, 3⟩, startPt := some ⟨0, 0⟩
          items := [.bezier ⟨[⟨1, 0⟩, ⟨1, 0⟩, ⟨2, 2⟩, ⟨3, 3⟩]⟩] }
        (if ("S" : String) = "T" then "QT" else "CS")
        (if ("S" : String) = "T" then 1 else 2)) ∧
    mirrorOfFam
      { command := some "S", lastCommand := some "C", absolute := true
        current := ⟨3, 3⟩, startPt := some ⟨0, 0⟩
        items := [.bezier ⟨[⟨1, 0⟩, ⟨1, 0⟩, ⟨2, 2⟩, ⟨3, 3⟩]⟩] }
      "CS" 2 = ⟨3, 3⟩ + ⟨3, 3⟩ - ⟨2, 2⟩ := by
  have hok : parseCmd
      { command := some "S", lastCommand := some "C", absolute := true
        current := ⟨3, 3⟩, startPt := some ⟨0, 0⟩
        items := [.bezier ⟨[⟨1, 0⟩, ⟨1, 0⟩, ⟨2, 2⟩, ⟨3, 3⟩]⟩] }
      [⟨"4", false, "4", true, some (false, 4, 0, 0)⟩,
       ⟨"4", false, "4", true, some (false, 4, 0, 0)⟩,
       ⟨"5", false, "5", true, some (false, 5, 0, 0)⟩,
       ⟨"5", false, "5", true, some (false, 5, 0, 0)⟩] = .ok
      ({ command := some "S", lastCommand := some "C", absolute := true
         current := ⟨5, 5⟩, startPt := some ⟨0, 0⟩
         items := [.bezier ⟨[⟨1, 0⟩, ⟨1, 0⟩, ⟨2, 2⟩, ⟨3, 3⟩]⟩,
                   .bezier ⟨[⟨3, 3⟩, ⟨4, 4⟩, ⟨4, 4⟩, ⟨5, 5⟩]⟩] }, []) := by
    simp +decide [parseCmd, smoothBranch, popPairs, popPair, floatVal,
      Bezier.control_point, Bezier.dimension]
    norm_num
  refine ⟨hok, ?_, ?_⟩
  · exact C3_amended_mirror _ "S" _ _ _ rfl (Or.inl rfl) hok
  · simp +decide [mirrorOfFam, Bezier.control_point, Bezier.dimension]

/-! ### C4: Bezier flattening -/

/-- Specification-side: the sum of Euclidean distances between consecutive
control points, taken forwards. -/
noncomputable def distSum : List Point → ℝ
  | p :: q :: rest => (Line.mk p q).length + distSum (q :: rest)
  | _ => 0

lemma Line.length_symm (p q : Point) :
    (Line.mk p q).length = (Line.mk q p).length := by
  unfold Line.length
  congr 1
  simp only [Point.sub_x, Point.sub_y]
  ring

lemma distSum_concat (m : List Point) (x : Point) :
    distSum (m ++ [x]) = distSum m +
      (match m.getLast? with
       | none => 0
       | some y => (Line.mk y x).length) := by
  induction m with
  | nil => simp [distSum]
  | cons y rest ih =>
    cases rest with
    | nil => simp [distSum]
    | cons z rest2 =>
      have : (y :: z :: rest2) ++ [x] = y :: ((z :: rest2) ++ [x]) := rfl
      rw [this]
      show (Line.mk y z).length + distSum ((z :: rest2) ++ [x]) = _
      rw [ih]
      show _ = (Line.mk y z).length + distSum (z :: rest2) + _
      rw [List.getLast?_cons_cons]
      ring

lemma distSum_reverse (l : List Point) : distSum l.reverse = distSum l := by
  induction l with
  | nil => rfl
  | cons x xs ih =>
    rw [List.reverse_cons, distSum_concat, ih, List.getLast?_reverse]
    cases xs with
    | nil => simp [distSum]
    | cons y rest =>
      show distSum (y :: rest) + (Line.mk y x).length =
        (Line.mk x y).length + distSum (y :: rest)
      rw [Line.length_symm]
      ring

lemma rlengthGo_eq_distSum (p : Point) (l : List Point) :
    Bezier.rlengthGo p l = distSum (p :: l) := by
  induction l generalizing p with
  | nil => rfl
  | cons q rest ih =>
    show (Line.mk p q).length + Bezier.rlengthGo q rest = _
    rw [ih]
    rfl

/-- rlength (a reversed pop-loop over the control points) equals the forward
sum of consecutive control-point distances. -/
lemma rlength_eq_distSum (b : Bezier) : b.rlength = distSum b.pts := by
  unfold Bezier.rlength
  cases h : b.pts.reverse with
  | nil =>
    have : b.pts = [] := by simpa using congrArg List.reverse h
    simp [this, distSum]
  | cons p rest =>
    simp only []
    rw [rlengthGo_eq_distSum, show p :: rest = b.pts.reverse from h.symm,
      distSum_reverse]

lemma rlengthGo_nonneg (p : Point) (l : List Point) : 0 ≤ Bezier.rlengthGo p l := by
  induction l generalizing p with
  | nil => exact le_refl 0
  | cons q rest ih =>
    exact add_nonneg (Real.sqrt_nonneg _) (ih q)

lemma rlength_nonneg (b : Bezier) : 0 ≤ b.rlength := by
  unfold Bezier.rlength
  cases h : b.pts.reverse with
  | nil => exact le_refl 0
  | cons p rest => exact rlengthGo_nonneg p rest

/-- For positive precision the two clamping ifs compute the clamp of
int(rlength / precision) + 1 to [10, 1000] (and int() is a floor there,
the quotient being nonnegative). -/
lemma stepCount_eq_of_pos (b : Bezier) (precision : ℝ) (h : 0 < precision) :
    b.stepCount precision = max 10 (min 1000 (⌊b.rlength / precision⌋ + 1)) := by
  unfold Bezier.stepCount pyTrunc
  rw [if_pos (ne_of_gt h), if_pos (div_nonneg (rlength_nonneg b) (le_of_lt h))]
  set n0 : ℤ := ⌊b.rlength / precision⌋ + 1 with hn0
  simp only []
  split_ifs <;> omega

/-- Precision 0 takes the default 1000 steps. -/
lemma stepCount_zero (b : Bezier) : b.stepCount 0 = 1000 := by
  unfold Bezier.stepCount
  norm_num

/-- C4: for a Bezier with at least one control point, segments(precision)
returns exactly n points, the i-th being the de Casteljau evaluation
_bezierN at t = i/n (t = 1 excluded): for precision > 0,
n = floor(rough_length / precision) + 1 clamped to [10, 1000], where the
rough length is the sum of distances between consecutive control points;
for precision = 0, n = 1000 exactly. -/
theorem C4_bezier_segments (b : Bezier) (precision : ℝ) (hb : b.pts ≠ []) :
    b.rlength = distSum b.pts ∧
    (0 < precision →
      b.segments precision = some ((List.range
          (max 10 (min 1000 (⌊b.rlength / precision⌋ + 1))).toNat).map
        (fun (i : ℕ) => b.bezierN ((i : ℝ) /
          ((max 10 (min 1000 (⌊b.rlength / precision⌋ + 1)) : ℤ) : ℝ)))) ∧
      (b.segments precision).map List.length =
        some (max 10 (min 1000 (⌊b.rlength / precision⌋ + 1))).toNat) ∧
    (precision = 0 →
      b.segments precision = some ((List.range 1000).map
        (fun (i : ℕ) => b.bezierN ((i : ℝ) / 1000))) ∧
      (b.segments precision).map List.length = some 1000) := by
  refine ⟨rlength_eq_distSum b, fun hp => ?_, fun hp => ?_⟩
  · have hsc := stepCount_eq_of_pos b precision hp
    cases hpts : b.pts with
    | nil => exact absurd hpts hb
    | cons p rest =>
      have hseg : b.segments precision = some ((List.range
          (b.stepCount precision).toNat).map
        (fun (t : ℕ) => b.bezierN ((t : ℝ) / ((b.stepCount precision : ℤ) : ℝ)))) := by
        unfold Bezier.segments
        rw [hpts]
      rw [hseg, hsc]
      refine ⟨rfl, ?_⟩
      simp only [Option.map_some', List.length_map, List.length_range]
  · subst hp
    have hsc := stepCount_zero b
    cases hpts : b.pts with
    | nil => exact absurd hpts hb
    | cons p rest =>
      have hseg : b.segments 0 = some ((List.range
          (b.stepCount 0).toNat).map
        (fun (t : ℕ) => b.bezierN ((t : ℝ) / ((b.stepCount 0 : ℤ) : ℝ)))) := by
        unfold Bezier.segments
        rw [hpts]
      rw [hseg, hsc]
      simp only [show ((1000 : ℤ)).toNat = 1000 from rfl,
        show (((1000 : ℤ)) : ℝ) = (1000 : ℝ) from by norm_num]
      refine ⟨trivial, ?_⟩
      simp only [Option.map_some', List.length_map, List.length_range]

/-- Witness for C4 at the two-control-point Bezier (0,0)-(3,4) (rough length
5) and precision 1: the clamp lifts floor(5/1) + 1 = 6 to 10 points; at
precision 0 it takes 1000 points. -/
theorem C4_bezier_segments_witness :
    (Bezier.mk [⟨0, 0⟩, ⟨3, 4⟩]).pts ≠ [] ∧ (0 : ℝ) < 1 ∧
    ((Bezier.mk [⟨0, 0⟩, ⟨3, 4⟩]).segments 1).map List.length = some 10 ∧
    ((Bezier.mk [⟨0, 0⟩, ⟨3, 4⟩]).segments 0).map List.length = some 1000 := by
  have hrl : (Bezier.mk [⟨0, 0⟩, ⟨3, 4⟩]).rlength = 5 := by
    unfold Bezier.rlength
    show Bezier.rlengthGo ⟨3, 4⟩ [⟨0, 0⟩] = 5
    show (Line.mk ⟨3, 4⟩ ⟨0, 0⟩).length + 0 = 5
    unfold Line.length
    simp only [Point.mk_sub_mk, sub_zero, zero_sub]
    norm_num
    rw [show ((25 : ℝ)) = 5 ^ 2 by norm_num, Real.sqrt_sq (by norm_num : (0 : ℝ) ≤ 5)]
  have h := C4_bezier_segments (Bezier.mk [⟨0, 0⟩, ⟨3, 4⟩]) 1 (by simp)
  have h0 := C4_bezier_segments (Bezier.mk [⟨0, 0⟩, ⟨3, 4⟩]) 0 (by simp)
  refine ⟨by simp, by norm_num, ?_, ?_⟩
  · have hx := (h.2.1 (by norm_num)).2
    rw [hrl] at hx
    rw [show ((5 : ℝ) / 1) = ((5 : ℤ) : ℝ) by norm_num, Int.floor_intCast] at hx
    norm_num at hx ⊢
    exact hx
  · exact (h0.2.2 rfl).2

/-! ### The collinearity test of the simplifier -/

@[simp] lemma Point.length_mk_eq_zero (a b : ℝ) :
    (Point.mk a b).length = 0 ↔ a = 0 ∧ b = 0 := Point.length_eq_zero _

/-- The tested ordinate c.y of the simplifier: rotate b = p3 - p1 into the
frame where a = p2 - p1 is the abscissa. -/
noncomputable def cyOf (p1 p2 p3 : Point) : ℝ :=
  ((p3 - p1).rot (Angle.ofPoint (p2 - p1)).negate).y

lemma length_sq (p : Point) : p.length ^ 2 = p.x ^ 2 + p.y ^ 2 :=
  Real.sq_sqrt (by positivity)

lemma length_nonneg (p : Point) : 0 ≤ p.length := Real.sqrt_nonneg _

/-- For a nondegenerate reference vector the tested ordinate is the cross
product of a and b over the length of a. -/
lemma cyOf_eq (p1 p2 p3 : Point) (ha : (p2 - p1).length ≠ 0) :
    cyOf p1 p2 p3 =
      ((p2 - p1).x * (p3 - p1).y - (p2 - p1).y * (p3 - p1).x) / (p2 - p1).length := by
  set a := p2 - p1 with hA
  set b := p3 - p1 with hB
  have hL : 0 < a.length := lt_of_le_of_ne (length_nonneg a) (Ne.symm ha)
  have hsq : a.length ^ 2 = a.x ^ 2 + a.y ^ 2 := length_sq a
  unfold cyOf Angle.ofPoint
  rw [← hA, ← hB, if_neg ha]
  have hone : (Point.mk (a.x / a.length) (-(a.y / a.length))).length = 1 := by
    have hval : (a.x / a.length) ^ 2 + (-(a.y / a.length)) ^ 2 = 1 := by
      rw [show (a.x / a.length) ^ 2 + (-(a.y / a.length)) ^ 2 =
          (a.x ^ 2 + a.y ^ 2) / a.length ^ 2 by ring, ← hsq,
        div_self (by positivity)]
    show Real.sqrt ((a.x / a.length) ^ 2 + (-(a.y / a.length)) ^ 2) = 1
    rw [hval, Real.sqrt_one]
  unfold Angle.negate Angle.ofPoint
  simp only []
  rw [if_neg (by rw [hone]; norm_num)]
  rw [hone]
  unfold Point.rot
  simp only []
  field_simp
  ring

/-- The tested ordinate of the current anchor p2 itself vanishes. -/
lemma cyOf_self (p1 p2 : Point) (ha : (p2 - p1).length ≠ 0) :
    cyOf p1 p2 p2 = 0 := by
  rw [cyOf_eq p1 p2 p2 ha]
  rw [show ((p2 - p1).x * (p2 - p1).y - (p2 - p1).y * (p2 - p1).x) = 0 by ring]
  exact zero_div _

/-! Unfolding lemmas for the simplifier loop, one per branch. -/

lemma simplifyLoop_nil (precision : ℝ) (p1 p2 : Point) (s : List Point) :
    simplifyLoop precision p1 p2 [] s = s := rfl

lemma simplifyLoop_zeroA (precision : ℝ) (p1 p2 p3 : Point) (rest s : List Point)
    (h : (p2 - p1).length = 0) :
    simplifyLoop precision p1 p2 (p3 :: rest) s =
      simplifyLoop precision p1 p3 rest (p3 :: s.tail) := by
  conv_lhs => unfold simplifyLoop
  rw [if_pos h]

lemma simplifyLoop_dup (precision : ℝ) (p1 p2 p3 : Point) (rest s : List Point)
    (ha : (p2 - p1).length ≠ 0) (hb : (p3 - p1).length = 0) :
    simplifyLoop precision p1 p2 (p3 :: rest) s =
      simplifyLoop precision p1 p2 rest s := by
  conv_lhs => unfold simplifyLoop
  rw [if_neg ha, if_pos hb]

lemma simplifyLoop_accept (precision : ℝ) (p1 p2 p3 : Point) (rest s : List Point)
    (ha : (p2 - p1).length ≠ 0) (hb : (p3 - p1).length ≠ 0)
    (hc : precision < |cyOf p1 p2 p3|) :
    simplifyLoop precision p1 p2 (p3 :: rest) s =
      simplifyLoop precision p2 p3 rest (p3 :: s) := by
  conv_lhs => unfold simplifyLoop
  rw [if_neg ha, if_neg hb]
  simp only []
  rw [show ((p3 - p1).rot (Angle.ofPoint (p2 - p1)).negate).y = cyOf p1 p2 p3 from rfl,
    if_pos hc]

lemma simplifyLoop_reject (precision : ℝ) (p1 p2 p3 : Point) (rest s : List Point)
    (ha : (p2 - p1).length ≠ 0) (hb : (p3 - p1).length ≠ 0)
    (hc : ¬ precision < |cyOf p1 p2 p3|) :
    simplifyLoop precision p1 p2 (p3 :: rest) s =
      simplifyLoop precision p1 p2 rest s := by
  conv_lhs => unfold simplifyLoop
  rw [if_neg ha, if_neg hb]
  simp only []
  rw [show ((p3 - p1).rot (Angle.ofPoint (p2 - p1)).negate).y = cyOf p1 p2 p3 from rfl,
    if_neg hc]

/-- C5: the simplifier does NOT remove the middle of the three exactly
collinear points (0,0),(5,0),(10,0): the seeded second point is already in
the output list when the third point is tested, and the skipped third point
is re-appended by the unconditional final append, so the result is the input
unchanged, not [(0,0),(10,0)] as the spec intends. -/
theorem C5_collinear_not_removed (precision : ℝ) (h : 0 ≤ precision) :
    simplifySeg precision [⟨0, 0⟩, ⟨5, 0⟩, ⟨10, 0⟩] =
      some [⟨0, 0⟩, ⟨5, 0⟩, ⟨10, 0⟩] ∧
    ([⟨0, 0⟩, ⟨5, 0⟩, ⟨10, 0⟩] : List Point) ≠ [⟨0, 0⟩, ⟨10, 0⟩] := by
  have ha : ((⟨5, 0⟩ : Point) - ⟨0, 0⟩).length ≠ 0 := by
    rw [Point.mk_sub_mk]
    simp
  have hb : ((⟨10, 0⟩ : Point) - ⟨0, 0⟩).length ≠ 0 := by
    rw [Point.mk_sub_mk]
    simp
  have hcy : cyOf ⟨0, 0⟩ ⟨5, 0⟩ ⟨10, 0⟩ = 0 := by
    rw [cyOf_eq _ _ _ ha]
    rw [Point.mk_sub_mk, Point.mk_sub_mk]
    norm_num
  constructor
  · unfold simplifySeg
    simp only []
    rw [show ([(⟨10, 0⟩ : Point)]).getLast? = some ⟨10, 0⟩ from rfl]
    simp only []
    rw [simplifyLoop_reject precision ⟨0, 0⟩ ⟨5, 0⟩ ⟨10, 0⟩ [] [⟨5, 0⟩, ⟨0, 0⟩] ha hb
      (by rw [hcy, abs_zero]; exact not_lt.mpr h)]
    rw [simplifyLoop_nil]
    rfl
  · intro hcontra
    simp at hcontra

/-- Witness for C5 at precision 0. -/
theorem C5_collinear_not_removed_witness :
    (0 : ℝ) ≤ 0 ∧
    simplifySeg 0 [⟨0, 0⟩, ⟨5, 0⟩, ⟨10, 0⟩] = some [⟨0, 0⟩, ⟨5, 0⟩, ⟨10, 0⟩] :=
  ⟨le_refl 0, (C5_collinear_not_removed 0 (le_refl 0)).1⟩

/-! ### C10: Path.simplify is not total on short subpaths -/

/-- A trailing MoveTo always leaves an empty final subpath in segments. -/
lemma segGo_concat_move (precision : ℝ) (m : MoveTo) :
    ∀ (items : List PItem) (seg : List Point) (l : List (List Point)),
      segGo precision (items ++ [.move m]) seg = some l → l.getLast? = some [] := by
  intro items
  induction items with
  | nil =>
    intro seg l h
    cases seg with
    | nil =>
      simp only [List.nil_append, segGo] at h
      cases h
      rfl
    | cons p rest =>
      simp only [List.nil_append, segGo] at h
      cases h
      rfl
  | cons it rest ih =>
    intro seg l h
    cases it with
    | move m2 =>
      rw [List.cons_append] at h
      cases seg with
      | nil =>
        rw [show segGo precision (PItem.move m2 :: (rest ++ [PItem.move m])) [] =
          segGo precision (rest ++ [PItem.move m]) [] from rfl] at h
        exact ih [] l h
      | cons p ps =>
        rw [show segGo precision (PItem.move m2 :: (rest ++ [PItem.move m])) (p :: ps) =
          (segGo precision (rest ++ [PItem.move m]) []).map ((p :: ps) :: ·) from rfl] at h
        cases h2 : segGo precision (rest ++ [PItem.move m]) [] with
        | none => rw [h2] at h; cases h
        | some l2 =>
          rw [h2] at h
          cases h
          have hl2 := ih [] l2 h2
          cases l2 with
          | nil => cases hl2
          | cons a as => simpa using hl2
    | line lne =>
      rw [List.cons_append] at h
      exact ih _ l h
    | zline p =>
      rw [List.cons_append] at h
      exact absurd h (by simp [segGo])
    | bezier b =>
      rw [List.cons_append] at h
      rw [show segGo precision (PItem.bezier b :: (rest ++ [PItem.move m])) seg =
        (match b.segments precision with
         | none => none
         | some pts => segGo precision (rest ++ [PItem.move m]) (seg ++ pts)) from rfl] at h
      cases hbs : b.segments precision with
      | none => rw [hbs] at h; cases h
      | some pts => rw [hbs] at h; exact ih _ l h

/-- Simplifying any list of subpaths containing an empty subpath raises. -/
lemma simplifyAll_none_of_mem_nil (precision : ℝ) :
    ∀ (l : List (List Point)), [] ∈ l → simplifyAll precision l = none := by
  intro l
  induction l with
  | nil => intro h; cases h
  | cons seg rest ih =>
    intro h
    rcases List.mem_cons.mp h with h1 | h2
    · rw [show simplifyAll precision (seg :: rest) =
        (match simplifySeg precision seg with
         | none => none
         | some s =>
           match simplifyAll precision rest with
           | none => none
           | some ss => some (s :: ss)) from rfl]
      rw [← h1]
      rfl
    · rw [show simplifyAll precision (seg :: rest) =
        (match simplifySeg precision seg with
         | none => none
         | some s =>
           match simplifyAll precision rest with
           | none => none
           | some ss => some (s :: ss)) from rfl]
      cases hs : simplifySeg precision seg with
      | none => rfl
      | some s => rw [ih h2]

/-- C10: Path.simplify is not total on short subpaths: a flattened subpath
with fewer than 2 points makes the initial pops raise, and one with exactly
2 points makes the unconditional final append read the never-assigned loop
variable p3; Path.segments emits exactly such an empty trailing subpath when
the primitive list is empty or ends with a MoveTo, so Path.simplify raises
there. -/
theorem C10_simplify_not_total :
    (∀ (precision : ℝ) (seg : List Point), seg.length < 2 →
      simplifySeg precision seg = none) ∧
    (∀ (precision : ℝ) (a b : Point), simplifySeg precision [a, b] = none) ∧
    (∀ precision : ℝ, Path.segments ([] : List PItem) precision = some [[]] ∧
      Path.simplify ([] : List PItem) precision = none) ∧
    (∀ (precision : ℝ) (items : List PItem) (m : MoveTo) (l : List (List Point)),
      Path.segments (items ++ [.move m]) precision = some l →
      l.getLast? = some [] ∧ Path.simplify (items ++ [.move m]) precision = none) := by
  refine ⟨?_, ?_, ?_, ?_⟩
  · intro precision seg hlen
    match seg with
    | [] => rfl
    | [a] => rfl
    | a :: b :: rest =>
      simp only [List.length_cons] at hlen
      exact absurd hlen (by omega)
  · intro precision a b
    rfl
  · intro precision
    exact ⟨rfl, rfl⟩
  · intro precision items m l h
    have hlast : l.getLast? = some [] := segGo_concat_move precision m items [] l h
    refine ⟨hlast, ?_⟩
    have hmem : ([] : List Point) ∈ l := by
      rcases List.mem_getLast?_eq_getLast (by rw [hlast]; rfl :
        ([] : List Point) ∈ l.getLast?) with ⟨hne, heq⟩
      rw [heq]
      exact List.getLast_mem hne
    unfold Path.simplify
    rw [h]
    exact simplifyAll_none_of_mem_nil precision l hmem

/-- Witness for C10: concrete short subpaths and a MoveTo-terminated path. -/
theorem C10_simplify_not_total_witness :
    simplifySeg 0 [⟨1, 1⟩] = none ∧
    simplifySeg 0 [⟨0, 0⟩, ⟨1, 1⟩] = none ∧
    Path.simplify ([] : List PItem) 0 = none ∧
    Path.simplify [PItem.move ⟨⟨3, 4⟩⟩] 0 = none := by
  refine ⟨C10_simplify_not_total.1 0 [⟨1, 1⟩] (by simp),
    C10_simplify_not_total.2.1 0 ⟨0, 0⟩ ⟨1, 1⟩,
    (C10_simplify_not_total.2.2.1 0).2, ?_⟩
  have h := C10_simplify_not_total.2.2.2 0 [] ⟨⟨3, 4⟩⟩ [[]] rfl
  simpa using h.2

/-! ### C7: the simplifier preserves subpath endpoints -/

/-- The loop keeps the accepted list at least 2 long and never touches its
deepest element (Python's s[0]; the head of the reversed list is the most
recent point, pops never reach the bottom). -/
lemma simplifyLoop_getLast? (precision : ℝ) :
    ∀ (rest : List Point) (p1 p2 : Point) (s : List Point), 2 ≤ s.length →
      2 ≤ (simplifyLoop precision p1 p2 rest s).length ∧
      (simplifyLoop precision p1 p2 rest s).getLast? = s.getLast? := by
  intro rest
  induction rest with
  | nil =>
    intro p1 p2 s hs
    rw [simplifyLoop_nil]
    exact ⟨hs, rfl⟩
  | cons p3 rest2 ih =>
    intro p1 p2 s hs
    obtain ⟨a, b, t, rfl⟩ : ∃ a b t, s = a :: b :: t := by
      cases s with
      | nil => simp at hs
      | cons a t =>
        cases t with
        | nil => simp at hs
        | cons b t2 => exact ⟨a, b, t2, rfl⟩
    by_cases h1 : (p2 - p1).length = 0
    · rw [simplifyLoop_zeroA _ _ _ _ _ _ h1]
      obtain ⟨hl2, hg2⟩ := ih p1 p3 (p3 :: b :: t) (by simp)
      simp only [List.tail_cons]
      refine ⟨hl2, ?_⟩
      rw [hg2]
      simp [List.getLast?_cons_cons]
    · by_cases h2 : (p3 - p1).length = 0
      · rw [simplifyLoop_dup _ _ _ _ _ _ h1 h2]
        exact ih p1 p2 (a :: b :: t) hs
      · by_cases h3 : precision < |cyOf p1 p2 p3|
        · rw [simplifyLoop_accept _ _ _ _ _ _ h1 h2 h3]
          obtain ⟨hl2, hg2⟩ := ih p2 p3 (p3 :: a :: b :: t) (by simp)
          refine ⟨hl2, ?_⟩
          rw [hg2]
          simp [List.getLast?_cons_cons]
        · rw [simplifyLoop_reject _ _ _ _ _ _ h1 h2 h3]
          exact ih p1 p2 (a :: b :: t) hs

/-- C7: whenever the simplifier completes on a subpath, the first point of
the input is the first point of the output and the last point of the input
is the last point of the output. -/
theorem C7_endpoints (precision : ℝ) (seg out : List Point)
    (h : simplifySeg precision seg = some out) :
    out.head? = seg.head? ∧ out.getLast? = seg.getLast? := by
  match seg with
  | [] => cases h
  | [a] => cases h
  | p1 :: p2 :: rest =>
    unfold simplifySeg at h
    simp only [] at h
    cases hq : rest.getLast? with
    | none => rw [hq] at h; cases h
    | some q =>
      rw [hq] at h
      simp only [Option.some.injEq] at h
      subst h
      have hrest : rest ≠ [] := by
        intro hr
        rw [hr] at hq
        cases hq
      obtain ⟨hl2, hg2⟩ := simplifyLoop_getLast? precision rest p1 p2 [p2, p1] (by simp)
      constructor
      · rw [List.head?_reverse]
        cases hL : simplifyLoop precision p1 p2 rest [p2, p1] with
        | nil => rw [hL] at hl2; simp at hl2
        | cons x xs =>
          rw [hL] at hg2
          rw [List.getLast?_cons_cons, hg2]
          rfl
      · rw [List.getLast?_reverse]
        show some q = (p1 :: p2 :: rest).getLast?
        cases rest with
        | nil => exact absurd rfl hrest
        | cons r rs =>
          rw [List.getLast?_cons_cons, List.getLast?_cons_cons]
          exact hq.symm

/-- Witness for C7 on the subpath (0,0),(2,0),(4,0) at precision 0. -/
theorem C7_endpoints_witness :
    simplifySeg 0 [⟨0, 0⟩, ⟨2, 0⟩, ⟨4, 0⟩] = some [⟨0, 0⟩, ⟨2, 0⟩, ⟨4, 0⟩] ∧
    ([⟨0, 0⟩, ⟨2, 0⟩, ⟨4, 0⟩] : List Point).head? =
      ([⟨0, 0⟩, ⟨2, 0⟩, ⟨4, 0⟩] : List Point).head? ∧
    ([⟨0, 0⟩, ⟨2, 0⟩, ⟨4, 0⟩] : List Point).getLast? =
      ([⟨0, 0⟩, ⟨2, 0⟩, ⟨4, 0⟩] : List Point).getLast? := by
  have ha : ((⟨2, 0⟩ : Point) - ⟨0, 0⟩).length ≠ 0 := by
    rw [Point.mk_sub_mk]
    simp
  have hb : ((⟨4, 0⟩ : Point) - ⟨0, 0⟩).length ≠ 0 := by
    rw [Point.mk_sub_mk]
    simp
  have hcy : cyOf ⟨0, 0⟩ ⟨2, 0⟩ ⟨4, 0⟩ = 0 := by
    rw [cyOf_eq _ _ _ ha, Point.mk_sub_mk, Point.mk_sub_mk]
    norm_num
  have heval : simplifySeg 0 [⟨0, 0⟩, ⟨2, 0⟩, ⟨4, 0⟩] =
      some [⟨0, 0⟩, ⟨2, 0⟩, ⟨4, 0⟩] := by
    unfold simplifySeg
    simp only []
    rw [show ([(⟨4, 0⟩ : Point)]).getLast? = some ⟨4, 0⟩ from rfl]
    simp only []
    rw [simplifyLoop_reject 0 ⟨0, 0⟩ ⟨2, 0⟩ ⟨4, 0⟩ [] [⟨2, 0⟩, ⟨0, 0⟩] ha hb
      (by rw [hcy, abs_zero]; exact not_lt.mpr (le_refl 0))]
    rw [simplifyLoop_nil]
    rfl
  have h := C7_endpoints 0 _ _ heval
  exact ⟨heval, h.1, h.2⟩

/-! ### C8: bbox caches extremes across mutations -/

lemma minUpd_some (m v : ℝ) : minUpd (some m) v = some (min v m) := by
  show (if v < m then some v else some m) = some (min v m)
  split_ifs with h
  · rw [min_eq_left (le_of_lt h)]
  · rw [min_eq_right (not_lt.mp h)]

lemma maxUpd_some (m v : ℝ) : maxUpd (some m) v = some (max v m) := by
  show (if v > m then some v else some m) = some (max v m)
  split_ifs with h
  · rw [max_eq_left (le_of_lt h)]
  · rw [max_eq_right (not_lt.mp h)]

/-- Folding a cached lower bound in afterwards. -/
noncomputable def someMin (o : Option ℝ) (x : ℝ) : Option ℝ :=
  match o with
  | none => some x
  | some v => some (min v x)

/-- Folding a cached upper bound in afterwards. -/
noncomputable def someMax (o : Option ℝ) (x : ℝ) : Option ℝ :=
  match o with
  | none => some x
  | some v => some (max v x)

lemma minUpd_someMin (a : Option ℝ) (A v : ℝ) :
    minUpd (someMin a A) v = someMin (minUpd a v) A := by
  cases a with
  | none => show minUpd (some A) v = someMin (some v) A; rw [minUpd_some]; rfl
  | some m => simp [someMin, minUpd_some, min_assoc]

lemma maxUpd_someMax (a : Option ℝ) (A v : ℝ) :
    maxUpd (someMax a A) v = someMax (maxUpd a v) A := by
  cases a with
  | none => show maxUpd (some A) v = someMax (some v) A; rw [maxUpd_some]; rfl
  | some m => simp [someMax, maxUpd_some, max_assoc]

/-- Starting the bbox loop from cached fields equals running it fresh and
folding the cached values in afterwards: the loop never discards a cached
extreme, it only widens it. -/
lemma bboxGo_cached (items : List DItem) :
    ∀ (a b c d : Option ℝ) (A B C D : ℝ),
      bboxGo (someMin a A) (someMax b B) (someMin c C) (someMax d D) items =
        (bboxGo a b c d items).map
          (fun r => (someMin r.1 A, someMax r.2.1 B, someMin r.2.2.1 C, someMax r.2.2.2 D)) := by
  induction items with
  | nil => intro a b c d A B C D; rfl
  | cons it rest ih =>
    intro a b c d A B C D
    unfold bboxGo
    cases hit : it.bbox with
    | none => rfl
    | some pr =>
      obtain ⟨pmin, pmax⟩ := pr
      simp only []
      rw [minUpd_someMin, maxUpd_someMax, minUpd_someMin, maxUpd_someMax, ih]

lemma minUpd_shift (o : Option ℝ) (v k : ℝ) :
    minUpd (o.map (· + k)) (v + k) = (minUpd o v).map (· + k) := by
  cases o with
  | none => rfl
  | some m =>
    show minUpd (some (m + k)) (v + k) = (minUpd (some m) v).map (· + k)
    rw [minUpd_some, minUpd_some]
    show some (min (v + k) (m + k)) = some (min v m + k)
    rw [min_add_add_right]

lemma maxUpd_shift (o : Option ℝ) (v k : ℝ) :
    maxUpd (o.map (· + k)) (v + k) = (maxUpd o v).map (· + k) := by
  cases o with
  | none => rfl
  | some m =>
    show maxUpd (some (m + k)) (v + k) = (maxUpd (some m) v).map (· + k)
    rw [maxUpd_some, maxUpd_some]
    show some (max (v + k) (m + k)) = some (max v m + k)
    rw [max_add_add_right]

lemma lineBboxShift (l : Line) (off : Point) :
    (Line.mk (l.start + off) (l.en + off)).bbox = (l.bbox.1 + off, l.bbox.2 + off) := by
  unfold Line.bbox
  simp only [Point.add_x, Point.add_y, add_lt_add_iff_right]
  split_ifs <;> rfl

/-- The accumulator of the rbbox fold shifted by an offset
(order: xmin, ymin, xmax, ymax). -/
noncomputable def shAcc (off : Point) (r : Option ℝ × Option ℝ × Option ℝ × Option ℝ) :
    Option ℝ × Option ℝ × Option ℝ × Option ℝ :=
  (r.1.map (· + off.x), r.2.1.map (· + off.y),
   r.2.2.1.map (· + off.x), r.2.2.2.map (· + off.y))

lemma rbboxFold_shift (off : Point) :
    ∀ (pts : List Point) (acc : Option ℝ × Option ℝ × Option ℝ × Option ℝ),
      (pts.map (· + off)).foldl rbboxStep (shAcc off acc) =
        shAcc off (pts.foldl rbboxStep acc) := by
  intro pts
  induction pts with
  | nil => intro acc; rfl
  | cons p rest ih =>
    intro acc
    obtain ⟨a, b, c, d⟩ := acc
    show List.foldl rbboxStep (rbboxStep (shAcc off (a, b, c, d)) (p + off)) _ = _
    have hstep : rbboxStep (shAcc off (a, b, c, d)) (p + off) =
        shAcc off (rbboxStep (a, b, c, d) p) := by
      unfold rbboxStep shAcc
      simp only [Point.add_x, Point.add_y]
      rw [minUpd_shift, minUpd_shift, maxUpd_shift, maxUpd_shift]
    rw [hstep]
    exact ih (rbboxStep (a, b, c, d) p)

lemma Bezier.rbbox_translate (b : Bezier) (off : Point) :
    (Bezier.mk (b.pts.map (· + off))).rbbox =
      b.rbbox.map (fun r => (r.1 + off, r.2 + off)) := by
  unfold Bezier.rbbox
  have h := rbboxFold_shift off b.pts (none, none, none, none)
  rw [show shAcc off (none, none, none, none) = (none, none, none, none) from rfl] at h
  show (match (b.pts.map (· + off)).foldl rbboxStep (none, none, none, none) with
    | (some xn, some yn, some xx, some yx) => some ((⟨xn, yn⟩ : Point), (⟨xx, yx⟩ : Point))
    | _ => none) = _
  rw [h]
  obtain ⟨a, b2, c, d⟩ := b.pts.foldl rbboxStep (none, none, none, none)
  cases a <;> cases b2 <;> cases c <;> cases d <;> rfl

/-- Translating a leaf shifts its bbox by the offset. -/
lemma ditemBboxShift (off : Point) (it : DItem) :
    (it.translate off).bbox = it.bbox.map (fun r => (r.1 + off, r.2 + off)) := by
  cases it with
  | line l =>
    show some ((Line.mk (l.start + off) (l.en + off)).bbox) = _
    rw [lineBboxShift]
    rfl
  | move m => rfl
  | circle cc =>
    show some (Circle.bbox ⟨cc.center + off, cc.radius⟩) = _
    unfold Circle.bbox
    show some _ = some (cc.center - ⟨cc.radius, cc.radius⟩ + off, cc.center + ⟨cc.radius, cc.radius⟩ + off)
    have h1 : cc.center + off - (⟨cc.radius, cc.radius⟩ : Point) =
        cc.center - ⟨cc.radius, cc.radius⟩ + off := by
      ext <;> simp <;> ring
    have h2 : cc.center + off + (⟨cc.radius, cc.radius⟩ : Point) =
        cc.center + ⟨cc.radius, cc.radius⟩ + off := by
      ext <;> simp <;> ring
    rw [h1, h2]
  | bezier b =>
    show (Bezier.mk (b.pts.map (· + off))).rbbox = b.rbbox.map _
    rw [Bezier.rbbox_translate]

/-- The bbox loop over translated children, from shifted accumulators. -/
lemma bboxGo_translate (off : Point) :
    ∀ (items : List DItem) (a b c d : Option ℝ),
      bboxGo (a.map (· + off.x)) (b.map (· + off.x))
        (c.map (· + off.y)) (d.map (· + off.y)) (items.map (DItem.translate off)) =
      (bboxGo a b c d items).map
        (fun r => (r.1.map (· + off.x), r.2.1.map (· + off.x),
                   r.2.2.1.map (· + off.y), r.2.2.2.map (· + off.y))) := by
  intro items
  induction items with
  | nil => intro a b c d; rfl
  | cons it rest ih =>
    intro a b c d
    simp only [List.map_cons, bboxGo, ditemBboxShift]
    cases hit : it.bbox with
    | none => rfl
    | some pr =>
      obtain ⟨pmin, pmax⟩ := pr
      simp only [Option.map_some', Point.add_x, Point.add_y]
      rw [minUpd_shift, maxUpd_shift, minUpd_shift, maxUpd_shift, ih]

/-- C8 amended: bbox is not computed fresh: the None-initialised fields are
mutated by the first call and kept by translate, so a second bbox() call
after translating returns the component-wise min/max of the FIRST box and
the translated children's box (the union of old and new), not the box of the
mutated geometry alone. -/
theorem C8_amended_bbox_accumulates (items : List DItem) (off : Point)
    (d1 : Drawable) (b1 : Point × Point)
    (h : Drawable.bbox ⟨items, none, none, none, none⟩ = some (d1, b1)) :
    Drawable.bbox (d1.translate off) = some
      (⟨items.map (DItem.translate off),
        some (min (b1.1.x + off.x) b1.1.x), some (max (b1.2.x + off.x) b1.2.x),
        some (min (b1.1.y + off.y) b1.1.y), some (max (b1.2.y + off.y) b1.2.y)⟩,
       (⟨min (b1.1.x + off.x) b1.1.x, min (b1.1.y + off.y) b1.1.y⟩,
        ⟨max (b1.2.x + off.x) b1.2.x, max (b1.2.y + off.y) b1.2.y⟩)) := by
  unfold Drawable.bbox at h
  cases hgo : bboxGo none none none none items with
  | none => rw [hgo] at h; cases h
  | some r =>
    obtain ⟨xn, xx, yn, yx⟩ := r
    rw [hgo] at h
    cases xn with
    | none => cases h
    | some A =>
      cases xx with
      | none => cases h
      | some B =>
        cases yn with
        | none => cases h
        | some C =>
          cases yx with
          | none => cases h
          | some D =>
            simp only [Option.some.injEq, Prod.mk.injEq] at h
            obtain ⟨hd1, hb1⟩ := h
            subst hd1
            unfold Drawable.translate
            simp only []
            unfold Drawable.bbox
            have hrun : bboxGo (some A) (some B) (some C) (some D)
                (items.map (DItem.translate off)) =
                some (some (min (A + off.x) A), some (max (B + off.x) B),
                      some (min (C + off.y) C), some (max (D + off.y) D)) := by
              have h1 : (some A : Option ℝ) = someMin ((none : Option ℝ).map (· + off.x)) A := rfl
              have h2 : (some B : Option ℝ) = someMax ((none : Option ℝ).map (· + off.x)) B := rfl
              have h3 : (some C : Option ℝ) = someMin ((none : Option ℝ).map (· + off.y)) C := rfl
              have h4 : (some D : Option ℝ) = someMax ((none : Option ℝ).map (· + off.y)) D := rfl
              rw [h1, h2, h3, h4, bboxGo_cached, bboxGo_translate, hgo]
              rfl
            rw [hrun]
            subst hb1
            rfl

/-- C8 counterexample: a composite holding the single Line (0,0)-(1,1):
bbox() gives ((0,0),(1,1)); after translate by (5,5) the geometry is
(5,5)-(6,6), but the second bbox() returns ((0,0),(6,6)) — old extremes are
kept — not the box ((5,5),(6,6)) of the mutated geometry. -/
theorem C8_counterexample :
    (Drawable.bbox ⟨[.line ⟨⟨0, 0⟩, ⟨1, 1⟩⟩], none, none, none, none⟩).map
      (fun r => (Drawable.bbox (r.1.translate ⟨5, 5⟩)).map (fun r2 => r2.2)) =
      some (some ((⟨0, 0⟩ : Point), (⟨6, 6⟩ : Point))) ∧
    ((⟨0, 0⟩ : Point), (⟨6, 6⟩ : Point)) ≠ ((⟨5, 5⟩ : Point), (⟨6, 6⟩ : Point)) := by
  have hlb : (Line.mk ⟨0, 0⟩ ⟨1, 1⟩).bbox = ((⟨0, 0⟩ : Point), (⟨1, 1⟩ : Point)) := by
    unfold Line.bbox
    norm_num
  have h1 : Drawable.bbox ⟨[.line ⟨⟨0, 0⟩, ⟨1, 1⟩⟩], none, none, none, none⟩ =
      some (⟨[.line ⟨⟨0, 0⟩, ⟨1, 1⟩⟩], some 0, some 1, some 0, some 1⟩,
        ((⟨0, 0⟩ : Point), (⟨1, 1⟩ : Point))) := by
    unfold Drawable.bbox bboxGo DItem.bbox
    simp only []
    rw [hlb]
    rfl
  have h2 := C8_amended_bbox_accumulates [.line ⟨⟨0, 0⟩, ⟨1, 1⟩⟩] ⟨5, 5⟩ _ _ h1
  rw [h1]
  simp only [Option.map_some']
  rw [h2]
  constructor
  · norm_num
  · intro hcon
    rw [Prod.mk.injEq, Point.ext_iff, Point.ext_iff] at hcon
    norm_num at hcon

/-- Witness for C8's amended theorem on the same concrete composite. -/
theorem C8_amended_bbox_accumulates_witness :
    Drawable.bbox ⟨[.line ⟨⟨0, 0⟩, ⟨1, 1⟩⟩], none, none, none, none⟩ =
      some (⟨[.line ⟨⟨0, 0⟩, ⟨1, 1⟩⟩], some 0, some 1, some 0, some 1⟩,
        ((⟨0, 0⟩ : Point), (⟨1, 1⟩ : Point))) ∧
    Drawable.bbox ((⟨[.line ⟨⟨0, 0⟩, ⟨1, 1⟩⟩], some 0, some 1, some 0, some 1⟩ :
        Drawable).translate ⟨5, 5⟩) = some
      (⟨[.line ⟨⟨5, 5⟩, ⟨6, 6⟩⟩],
        some (min ((0 : ℝ) + 5) 0), some (max ((1 : ℝ) + 5) 1),
        some (min ((0 : ℝ) + 5) 0), some (max ((1 : ℝ) + 5) 1)⟩,
       (⟨min ((0 : ℝ) + 5) 0, min ((0 : ℝ) + 5) 0⟩,
        ⟨max ((1 : ℝ) + 5) 1, max ((1 : ℝ) + 5) 1⟩)) := by
  have hlb : (Line.mk ⟨0, 0⟩ ⟨1, 1⟩).bbox = ((⟨0, 0⟩ : Point), (⟨1, 1⟩ : Point)) := by
    unfold Line.bbox
    norm_num
  have h1 : Drawable.bbox ⟨[.line ⟨⟨0, 0⟩, ⟨1, 1⟩⟩], none, none, none, none⟩ =
      some (⟨[.line ⟨⟨0, 0⟩, ⟨1, 1⟩⟩], some 0, some 1, some 0, some 1⟩,
        ((⟨0, 0⟩ : Point), (⟨1, 1⟩ : Point))) := by
    unfold Drawable.bbox bboxGo DItem.bbox
    simp only []
    rw [hlb]
    rfl
  refine ⟨h1, ?_⟩
  have h2 := C8_amended_bbox_accumulates [.line ⟨⟨0, 0⟩, ⟨1, 1⟩⟩] ⟨5, 5⟩ _ _ h1
  rw [h2]
  have htr : DItem.translate ⟨5, 5⟩ (.line ⟨⟨0, 0⟩, ⟨1, 1⟩⟩) =
      .line ⟨⟨5, 5⟩, ⟨6, 6⟩⟩ := by
    show DItem.line ⟨(⟨0, 0⟩ : Point) + ⟨5, 5⟩, (⟨1, 1⟩ : Point) + ⟨5, 5⟩⟩ = _
    rw [Point.mk_add_mk, Point.mk_add_mk]
    norm_num
  simp only [List.map_cons, List.map_nil, htr]

/-! ### C6: idempotence of the simplifier

The accepted output of one pass is characterised by a chain predicate: each
interior point was accepted against exactly the two points before it, and
the trailing point (the unconditional final append) is one the loop would
skip again.  A second pass over such a list reproduces it verbatim — for
nonnegative precision.  (For negative precision the test prec < |c.y| always
holds and the final duplicate gets re-accepted, so idempotence fails; see
the counterexample.) -/

/-- The loop accepts candidate c against anchors (u, v). -/
noncomputable def Accept (precision : ℝ) (u v c : Point) : Prop :=
  (v - u).length ≠ 0 ∧ (c - u).length ≠ 0 ∧ precision < |cyOf u v c|

/-- Every interior point is accepted against the two before it. -/
noncomputable def ChainFrom (precision : ℝ) : Point → Point → List Point → Prop
  | _, _, [] => True
  | u, v, c :: cs => Accept precision u v c ∧ ChainFrom precision v c cs

/-- The last two points of y0 :: y1 :: mid. -/
def end2 : Point → Point → List Point → Point × Point
  | u, v, [] => (u, v)
  | _, v, c :: cs => end2 v c cs

/-- The trailing point q is one the loop leaves the accepted list unchanged
for, given final anchors (u, v). -/
noncomputable def LastOK (precision : ℝ) (u v q : Point) : Prop :=
  ((v - u).length = 0 ∧ q = v) ∨
  ((v - u).length ≠ 0 ∧ (q = u ∨ ¬ precision < |cyOf u v q|))

lemma chainFrom_snoc (precision : ℝ) :
    ∀ (mid : List Point) (y0 y1 u v c : Point),
      ChainFrom precision y0 y1 mid → end2 y0 y1 mid = (u, v) →
      Accept precision u v c →
      ChainFrom precision y0 y1 (mid ++ [c]) ∧ end2 y0 y1 (mid ++ [c]) = (v, c) := by
  intro mid
  induction mid with
  | nil =>
    intro y0 y1 u v c _ hend hacc
    obtain ⟨rfl, rfl⟩ : y0 = u ∧ y1 = v := by
      have h1 : end2 y0 y1 [] = (y0, y1) := rfl
      rw [h1] at hend
      exact ⟨congrArg Prod.fst hend, congrArg Prod.snd hend⟩
    exact ⟨⟨hacc, trivial⟩, rfl⟩
  | cons d ds ih =>
    intro y0 y1 u v c hch hend hacc
    obtain ⟨hacc0, hch'⟩ := hch
    have := ih y1 d u v c hch' hend hacc
    exact ⟨⟨hacc0, this.1⟩, this.2⟩

/-- Replay: running the loop over a chain followed by a LastOK point leaves
the accepted list exactly the chain (the trailing point changes nothing). -/
lemma simplifyLoop_replay (precision : ℝ) :
    ∀ (mid : List Point) (u v q : Point) (t : List Point),
      ChainFrom precision u v mid →
      LastOK precision (end2 u v mid).1 (end2 u v mid).2 q →
      simplifyLoop precision u v (mid ++ [q]) (v :: u :: t) =
        mid.reverse ++ v :: u :: t := by
  intro mid
  induction mid with
  | nil =>
    intro u v q t _ hlast
    simp only [end2] at hlast
    rw [List.nil_append, List.reverse_nil, List.nil_append]
    rcases hlast with ⟨hvu, rfl⟩ | ⟨hvu, hrest⟩
    · rw [simplifyLoop_zeroA _ _ _ _ _ _ hvu]
      rw [simplifyLoop_nil]
      rfl
    · by_cases hb : (q - u).length = 0
      · rw [simplifyLoop_dup _ _ _ _ _ _ hvu hb, simplifyLoop_nil]
      · have hcy : ¬ precision < |cyOf u v q| := by
          rcases hrest with hq | hcy
        -- q = u contradicts hb
          · exact absurd (by rw [hq]; simp [Point.length_eq_zero]) hb
          · exact hcy
        rw [simplifyLoop_reject _ _ _ _ _ _ hvu hb hcy, simplifyLoop_nil]
  | cons c cs ih =>
    intro u v q t hch hlast
    obtain ⟨⟨ha, hb, hc⟩, hch'⟩ := hch
    rw [List.cons_append, simplifyLoop_accept _ _ _ _ _ _ ha hb hc]
    have hend : end2 u v (c :: cs) = end2 v c cs := rfl
    rw [hend] at hlast
    rw [ih v c q (u :: t) hch' hlast]
    rw [List.reverse_cons, List.append_assoc]
    rfl

/-- One pass of the loop produces a chain-shaped accepted list together with
a LastOK trailing candidate (q is the last point the loop processes). -/
lemma simplifyLoop_chain (precision : ℝ) (hprec : 0 ≤ precision) :
    ∀ (rest : List Point) (q u v : Point) (t : List Point) (y0 y1 : Point) (mid : List Point),
      (v :: u :: t).reverse = y0 :: y1 :: mid →
      ChainFrom precision y0 y1 mid →
      end2 y0 y1 mid = (u, v) →
      ((v - u).length = 0 → mid = []) →
      ∃ (y0' y1' : Point) (mid' : List Point) (uf vf : Point) (tf : List Point),
        simplifyLoop precision u v (rest ++ [q]) (v :: u :: t) = vf :: uf :: tf ∧
        (vf :: uf :: tf).reverse = y0' :: y1' :: mid' ∧
        ChainFrom precision y0' y1' mid' ∧
        end2 y0' y1' mid' = (uf, vf) ∧
        ((vf - uf).length = 0 → mid' = []) ∧
        LastOK precision uf vf q := by
  intro rest
  induction rest with
  | nil =>
    intro q u v t y0 y1 mid hrev hch hend hinv
    rw [List.nil_append]
    by_cases h1 : (v - u).length = 0
    · have hmid : mid = [] := hinv h1
      subst hmid
      have ht : t = [] := by
        have hlen := congrArg List.length hrev
        simp at hlen
        exact hlen
      subst ht
      have hy : u = y0 ∧ v = y1 := by
        have : ([u, v] : List Point) = [y0, y1] := by simpa using hrev
        simp at this
        exact this
      rw [simplifyLoop_zeroA _ _ _ _ _ _ h1]
      rw [show ((v :: u :: [] : List Point)).tail = [u] from rfl, simplifyLoop_nil]
      refine ⟨u, q, [], u, q, [], rfl, rfl, trivial, rfl, fun _ => rfl, ?_⟩
      by_cases hq : (q - u).length = 0
      · exact Or.inl ⟨hq, rfl⟩
      · exact Or.inr ⟨hq, Or.inr (by rw [cyOf_self u q hq, abs_zero]; exact not_lt.mpr hprec)⟩
    · by_cases h2 : (q - u).length = 0
      · rw [simplifyLoop_dup _ _ _ _ _ _ h1 h2, simplifyLoop_nil]
        exact ⟨y0, y1, mid, u, v, t, rfl, hrev, hch, hend, hinv, Or.inr ⟨h1,
          Or.inl ((Point.length_sub_eq_zero q u).mp h2)⟩⟩
      · by_cases h3 : precision < |cyOf u v q|
        · rw [simplifyLoop_accept _ _ _ _ _ _ h1 h2 h3, simplifyLoop_nil]
          have hqv : (q - v).length ≠ 0 := by
            intro hzero
            have hq : q = v := (Point.length_sub_eq_zero q v).mp hzero
            rw [hq, cyOf_self u v h1, abs_zero] at h3
            exact absurd h3 (not_lt.mpr hprec)
          obtain ⟨hch', hend'⟩ := chainFrom_snoc precision mid y0 y1 u v q hch hend ⟨h1, h2, h3⟩
          refine ⟨y0, y1, mid ++ [q], v, q, u :: t, rfl, ?_, hch', hend',
            fun h => absurd h hqv, ?_⟩
          · rw [List.reverse_cons, hrev]
            rfl
          · exact Or.inr ⟨hqv, Or.inr (by rw [cyOf_self v q hqv, abs_zero]; exact not_lt.mpr hprec)⟩
        · rw [simplifyLoop_reject _ _ _ _ _ _ h1 h2 h3, simplifyLoop_nil]
          exact ⟨y0, y1, mid, u, v, t, rfl, hrev, hch, hend, hinv, Or.inr ⟨h1, Or.inr h3⟩⟩
  | cons c rest2 ih =>
    intro q u v t y0 y1 mid hrev hch hend hinv
    rw [List.cons_append]
    by_cases h1 : (v - u).length = 0
    · have hmid : mid = [] := hinv h1
      subst hmid
      have ht : t = [] := by
        have hlen := congrArg List.length hrev
        simp at hlen
        exact hlen
      subst ht
      rw [simplifyLoop_zeroA _ _ _ _ _ _ h1]
      rw [show ((v :: u :: [] : List Point)).tail = [u] from rfl]
      exact ih q u c [] u c [] rfl trivial rfl (fun _ => rfl)
    · by_cases h2 : (c - u).length = 0
      · rw [simplifyLoop_dup _ _ _ _ _ _ h1 h2]
        exact ih q u v t y0 y1 mid hrev hch hend hinv
      · by_cases h3 : precision < |cyOf u v c|
        · rw [simplifyLoop_accept _ _ _ _ _ _ h1 h2 h3]
          have hcv : (c - v).length ≠ 0 := by
            intro hzero
            have hc : c = v := (Point.length_sub_eq_zero c v).mp hzero
            rw [hc, cyOf_self u v h1, abs_zero] at h3
            exact absurd h3 (not_lt.mpr hprec)
          obtain ⟨hch', hend'⟩ := chainFrom_snoc precision mid y0 y1 u v c hch hend ⟨h1, h2, h3⟩
          refine ih q v c (u :: t) y0 y1 (mid ++ [c]) ?_ hch' hend' (fun h => absurd h hcv)
          rw [List.reverse_cons, hrev]
          rfl
        · rw [simplifyLoop_reject _ _ _ _ _ _ h1 h2 h3]
          exact ih q u v t y0 y1 mid hrev hch hend hinv

/-- C6 amended: for nonnegative precision, the simplifier pass is idempotent
on every subpath it completes on: simplifying the output again returns it
unchanged. -/
theorem C6_amended_idempotent (precision : ℝ) (hprec : 0 ≤ precision)
    (seg out : List Point) (h : simplifySeg precision seg = some out) :
    simplifySeg precision out = some out := by
  match seg with
  | [] => cases h
  | [a] => cases h
  | p1 :: p2 :: rest =>
    unfold simplifySeg at h
    simp only [] at h
    cases hq : rest.getLast? with
    | none => rw [hq] at h; cases h
    | some q =>
      rw [hq] at h
      simp only [Option.some.injEq] at h
      have hrest : rest.dropLast ++ [q] = rest :=
        List.dropLast_append_getLast? q (by rw [hq]; rfl)
      obtain ⟨y0, y1, mid, uf, vf, tf, hloop, hrev, hch, hend, hinv, hlast⟩ :=
        simplifyLoop_chain precision hprec rest.dropLast q p1 p2 [] p1 p2 []
          rfl trivial rfl (fun _ => rfl)
      rw [hrest] at hloop
      rw [hloop] at h
      have hout : out = y0 :: y1 :: (mid ++ [q]) := by
        rw [← h, show (q :: vf :: uf :: tf : List Point).reverse =
          (vf :: uf :: tf).reverse ++ [q] from by rw [List.reverse_cons], hrev]
        rfl
      rw [hout]
      unfold simplifySeg
      simp only []
      rw [List.getLast?_concat]
      simp only []
      rw [simplifyLoop_replay precision mid y0 y1 q [] hch
        (by rw [hend]; exact hlast)]
      simp [List.reverse_cons, List.reverse_append, List.reverse_reverse,
        List.append_assoc]

/-- C6 counterexample: at precision -1 the test prec < |c.y| always passes,
the final append duplicates the accepted last point, and re-running the pass
accepts the duplicate and appends yet another copy: the claim quantifies
over every precision, so idempotence fails. -/
theorem C6_counterexample :
    simplifySeg (-1) [⟨0, 0⟩, ⟨1, 0⟩, ⟨2, 0⟩] =
      some [⟨0, 0⟩, ⟨1, 0⟩, ⟨2, 0⟩, ⟨2, 0⟩] ∧
    simplifySeg (-1) [⟨0, 0⟩, ⟨1, 0⟩, ⟨2, 0⟩, ⟨2, 0⟩] =
      some [⟨0, 0⟩, ⟨1, 0⟩, ⟨2, 0⟩, ⟨2, 0⟩, ⟨2, 0⟩] ∧
    (some [⟨0, 0⟩, ⟨1, 0⟩, ⟨2, 0⟩, ⟨2, 0⟩, ⟨2, 0⟩] :
      Option (List Point)) ≠ some [⟨0, 0⟩, ⟨1, 0⟩, ⟨2, 0⟩, ⟨2, 0⟩] := by
  have ha : ((⟨1, 0⟩ : Point) - ⟨0, 0⟩).length ≠ 0 := by
    rw [Point.mk_sub_mk]
    simp
  have hb : ((⟨2, 0⟩ : Point) - ⟨0, 0⟩).length ≠ 0 := by
    rw [Point.mk_sub_mk]
    simp
  have ha2 : ((⟨2, 0⟩ : Point) - ⟨1, 0⟩).length ≠ 0 := by
    rw [Point.mk_sub_mk]
    norm_num [Point.length_mk_eq_zero]
  have hcy1 : cyOf ⟨0, 0⟩ ⟨1, 0⟩ ⟨2, 0⟩ = 0 := by
    rw [cyOf_eq _ _ _ ha, Point.mk_sub_mk, Point.mk_sub_mk]
    norm_num
  refine ⟨?_, ?_, by simp⟩
  · unfold simplifySeg
    simp only []
    rw [show ([(⟨2, 0⟩ : Point)]).getLast? = some ⟨2, 0⟩ from rfl]
    simp only []
    rw [simplifyLoop_accept (-1) ⟨0, 0⟩ ⟨1, 0⟩ ⟨2, 0⟩ [] [⟨1, 0⟩, ⟨0, 0⟩] ha hb
      (by rw [hcy1, abs_zero]; norm_num)]
    rw [simplifyLoop_nil]
    rfl
  · unfold simplifySeg
    simp only []
    rw [show ([(⟨2, 0⟩ : Point), ⟨2, 0⟩]).getLast? = some ⟨2, 0⟩ from rfl]
    simp only []
    rw [simplifyLoop_accept (-1) ⟨0, 0⟩ ⟨1, 0⟩ ⟨2, 0⟩ [⟨2, 0⟩] [⟨1, 0⟩, ⟨0, 0⟩] ha hb
      (by rw [hcy1, abs_zero]; norm_num)]
    rw [simplifyLoop_accept (-1) ⟨1, 0⟩ ⟨2, 0⟩ ⟨2, 0⟩ [] [⟨2, 0⟩, ⟨1, 0⟩, ⟨0, 0⟩] ha2 ha2
      (by rw [cyOf_self _ _ ha2, abs_zero]; norm_num)]
    rw [simplifyLoop_nil]
    rfl

/-- Witness for C6's amended theorem at precision 0 on (0,0),(1,0),(2,0). -/
theorem C6_amended_idempotent_witness :
    (0 : ℝ) ≤ 0 ∧
    simplifySeg 0 [⟨0, 0⟩, ⟨1, 0⟩, ⟨2, 0⟩] = some [⟨0, 0⟩, ⟨1, 0⟩, ⟨2, 0⟩] ∧
    simplifySeg 0 [⟨0, 0⟩, ⟨1, 0⟩, ⟨2, 0⟩] = some [⟨0, 0⟩, ⟨1, 0⟩, ⟨2, 0⟩] := by
  have ha : ((⟨1, 0⟩ : Point) - ⟨0, 0⟩).length ≠ 0 := by
    rw [Point.mk_sub_mk]
    simp
  have hb : ((⟨2, 0⟩ : Point) - ⟨0, 0⟩).length ≠ 0 := by
    rw [Point.mk_sub_mk]
    simp
  have hcy1 : cyOf ⟨0, 0⟩ ⟨1, 0⟩ ⟨2, 0⟩ = 0 := by
    rw [cyOf_eq _ _ _ ha, Point.mk_sub_mk, Point.mk_sub_mk]
    norm_num
  have heval : simplifySeg 0 [⟨0, 0⟩, ⟨1, 0⟩, ⟨2, 0⟩] =
      some [⟨0, 0⟩, ⟨1, 0⟩, ⟨2, 0⟩] := by
    unfold simplifySeg
    simp only []
    rw [show ([(⟨2, 0⟩ : Point)]).getLast? = some ⟨2, 0⟩ from rfl]
    simp only []
    rw [simplifyLoop_reject 0 ⟨0, 0⟩ ⟨1, 0⟩ ⟨2, 0⟩ [] [⟨1, 0⟩, ⟨0, 0⟩] ha hb
      (by rw [hcy1, abs_zero]; exact not_lt.mpr (le_refl 0))]
    rw [simplifyLoop_nil]
    rfl
  exact ⟨le_refl 0, heval, C6_amended_idempotent 0 (le_refl 0) _ _ heval⟩

end Svg
